import Mathlib

/-!
Verification of the go-mysql-server core spec against a shallow Lean
embedding of the repository's source.

Each definition carries a comment naming the Go source it embeds
(file / function).  Where the deciding implementation is not part of the
source slice (only its tests are), the definition is modelled from the
spec and its doc comment starts with `Modelled from the spec:`.
-/

namespace GMS

/-! ## sql/type.go: CompareNulls

Embeds `CompareNulls(a, b interface{}) (bool, int)`.
Go `nil` is modelled as `Option.none`.  The pair returned is
(either-is-null flag, ordering integer), where the ordering integer
follows the `Type.Compare` convention: -1 means a < b, +1 means a > b. -/
def CompareNulls {α : Type} (a b : Option α) : Bool × Int :=
  let aIsNull := a.isNone
  let bIsNull := b.isNone
  if aIsNull && bIsNull then (true, 0)
  else if aIsNull && !bIsNull then (true, 1)
  else if !aIsNull && bIsNull then (true, -1)
  else (false, 0)

/-! ## sql/type.go: ConvertToBool

Embeds `ConvertToBool(v interface{}) (bool, error)`.  Go machine numbers
are modelled as unbounded integers / rationals (no branch of the source
function depends on overflow).  The Go `switch` delegation chains
(`case int32: return ConvertToBool(int64(b))` etc.) are mirrored by the
helper functions below. -/

/-- Variants of the Go `interface{}` values accepted by `ConvertToBool`.
`vNil` is Go `nil`; `vOther` stands for any value hitting the default arm. -/
inductive GoVal : Type where
  | vBool (b : Bool)
  | vInt (n : Int)
  | vInt64 (n : Int)
  | vInt32 (n : Int)
  | vInt16 (n : Int)
  | vInt8 (n : Int)
  | vUint (n : Nat)
  | vUint64 (n : Nat)
  | vUint32 (n : Nat)
  | vUint16 (n : Nat)
  | vUint8 (n : Nat)
  | vDuration (n : Int)
  | vTime (unixNano : Int)
  | vFloat32 (q : ℚ)
  | vFloat64 (q : ℚ)
  | vStr (s : String)
  | vNil
  | vOther
deriving DecidableEq

/-- The `case int64` arm of `ConvertToBool`: zero is false, all else true. -/
def int64ToBool (n : Int) : Bool := n != 0

/-- The `case uint64` arm of `ConvertToBool`. -/
def uint64ToBool (n : Nat) : Bool := n != 0

/-- The `case float64` arm of `ConvertToBool`. -/
def float64ToBool (q : ℚ) : Bool := q != 0

/-- One decimal digit value of a character, when it is a digit. -/
def digitVal (c : Char) : Nat := c.toNat - '0'.toNat

/-- Maximal-munch decimal digit scanner: consumes leading digits,
accumulating their value onto `acc`; returns the value, the count of
digits consumed and the remaining characters. -/
def scanDigits (acc : Nat) (k : Nat) : List Char → Nat × Nat × List Char
  | [] => (acc, k, [])
  | c :: cs =>
    if c.isDigit then scanDigits (10 * acc + digitVal c) (k + 1) cs
    else (acc, k, c :: cs)

/-- Embeds Go `strconv.ParseFloat(s, 64)` on the decimal fragment of its
grammar: `[+|-] digits [. digits] [e|E [+|-] digits]`, requiring at least
one mantissa digit and consuming the whole string.  The hexadecimal,
`Inf` and `NaN` arms of the Go parser are not modelled (no claim touches
them); the parsed value is kept exact as a rational rather than rounded
to binary, which no claim distinguishes. -/
def goParseFloat (s : String) : Option ℚ :=
  let cs := s.data
  -- optional sign
  let (sign, cs) : ℚ × List Char :=
    match cs with
    | '+' :: rest => (1, rest)
    | '-' :: rest => (-1, rest)
    | rest => (1, rest)
  -- integer part
  let (ip, ipLen, cs) := scanDigits 0 0 cs
  -- optional fraction
  let (fp, fpLen, cs) : Nat × Nat × List Char :=
    match cs with
    | '.' :: rest => scanDigits 0 0 rest
    | rest => (0, 0, rest)
  if ipLen + fpLen = 0 then none
  else
    -- optional exponent
    let expPart : Option (Int × List Char) :=
      match cs with
      | 'e' :: rest | 'E' :: rest =>
        let (esign, rest) : Int × List Char :=
          match rest with
          | '+' :: r => (1, r)
          | '-' :: r => (-1, r)
          | r => (1, r)
        let (ev, evLen, rest) := scanDigits 0 0 rest
        if evLen = 0 then none else some (esign * ev, rest)
      | rest => some (0, rest)
    match expPart with
    | none => none
    | some (ex, rest) =>
      if rest = [] then
        some (sign * ((ip : ℚ) + (fp : ℚ) / (10 : ℚ) ^ fpLen) * (10 : ℚ) ^ ex)
      else none

/-- Embeds `ConvertToBool` (sql/type.go).  Returns `.error` for the two
arms that produce a Go error (`nil` and the default arm). -/
def ConvertToBool : GoVal → Except String Bool
  | .vBool b => .ok b
  | .vInt n => .ok (int64ToBool n)
  | .vInt64 n => .ok (int64ToBool n)
  | .vInt32 n => .ok (int64ToBool n)
  | .vInt16 n => .ok (int64ToBool n)
  | .vInt8 n => .ok (int64ToBool n)
  | .vUint n => .ok (int64ToBool (n : Int))
  | .vUint64 n => .ok (uint64ToBool n)
  | .vUint32 n => .ok (uint64ToBool n)
  | .vUint16 n => .ok (uint64ToBool n)
  | .vUint8 n => .ok (uint64ToBool n)
  | .vDuration n => .ok (int64ToBool n)
  | .vTime nano => .ok (int64ToBool nano)
  | .vFloat32 q => .ok (float64ToBool q)
  | .vFloat64 q => .ok (float64ToBool q)
  | .vStr s =>
    match goParseFloat s with
    | none => .ok false -- In MySQL, if the string does not represent a float then it is false
    | some q => .ok (q != 0)
  | .vNil => .error "unable to cast nil to bool"
  | .vOther => .error "unable to cast value to bool"

/-! ## sql/type.go: NumColumns / ErrIfMismatchedColumns

SQL types are modelled by their tuple structure only: `base` covers every
non-tuple type (whose identity is irrelevant to these functions) and
`tuple` is `TupleType`, a slice of subtypes. -/

/-- The tuple structure of a `sql.Type`. -/
inductive SqlType : Type where
  | base (name : String)
  | tuple (subtypes : List SqlType)

/-- Embeds `NumColumns` (sql/type.go): one for all types except tuples. -/
def NumColumns : SqlType → Nat
  | .base _ => 1
  | .tuple l => l.length

mutual
/-- Embeds `ErrIfMismatchedColumns` (sql/type.go).  The returned payload
is the `(expected, got)` argument pair of `ErrInvalidOperandColumns`;
`none` is the Go `nil` return. -/
def ErrIfMismatchedColumns (t1 t2 : SqlType) : Option (Nat × Nat) :=
  if NumColumns t1 ≠ NumColumns t2 then some (NumColumns t1, NumColumns t2)
  else
    match t1, t2 with
    | .tuple l1, .tuple l2 => errIfMismatchedColumnsList l1 l2
    | _, _ => none

/-- The `for i := range v1` loop of `ErrIfMismatchedColumns`: returns the
first mismatch error among corresponding subtype pairs. -/
def errIfMismatchedColumnsList : List SqlType → List SqlType → Option (Nat × Nat)
  | a :: as', b :: bs =>
    (match ErrIfMismatchedColumns a b with
     | some e => some e
     | none => errIfMismatchedColumnsList as' bs)
  | _, _ => none
end

mutual
/-- The claim's condition, stated in its own words: the column counts of
t1 and t2 differ, or both are tuple types and some corresponding pair of
subtypes recursively has mismatched column counts. -/
def specMismatched (t1 t2 : SqlType) : Bool :=
  (NumColumns t1 != NumColumns t2) ||
    (match t1, t2 with
     | .tuple l1, .tuple l2 => specMismatchedAny l1 l2
     | _, _ => false)

/-- Some corresponding pair of subtypes is recursively mismatched. -/
def specMismatchedAny : List SqlType → List SqlType → Bool
  | a :: as', b :: bs => specMismatched a b || specMismatchedAny as' bs
  | _, _ => false
end

/-! ## analyzer insert rules (src/unnamed/part_000)

Embeds `validateColumns`, `validateValueCount`, `wrapRowSource`,
`existsNonZeroValueCount` and the core of `resolveInsertRows`. -/

/-- A column default expression.  Defaults are opaque in this model: the
`fixidx.FixFieldIndexes` transform applied to `GetField`s inside a default
is the identity here, since no claim depends on the indices inside a
default expression. -/
inductive DefaultExpr : Type where
  | mk (id : Nat)
deriving DecidableEq

/-- An expression inside a VALUES tuple (opaque; only tuple arity is
inspected by the embedded functions). -/
inductive InsExpr : Type where
  | mk
deriving DecidableEq

/-- The `sql.Column` fields consulted by the insert analyzer rules.
`generated` is `col.Generated != nil`. -/
structure Column : Type where
  name : String
  nullable : Bool
  default : Option DefaultExpr
  autoIncrement : Bool
  generated : Bool
deriving DecidableEq

/-- The source node of an INSERT after its own analysis: a VALUES list, a
LOAD DATA node, an Exchange wrapper, or any SELECT-shaped node (the
parser guarantees the default `switch` arm only sees those), carrying its
output schema. -/
inductive InsertSource : Type where
  | values (tuples : List (List InsExpr))
  | loadData (colNames : List String) (schema : List Column)
  | selectNode (schema : List Column)
  | exchange (child : InsertSource)

/-- Error kinds raised by the embedded insert rules. -/
inductive InsErr : Type where
  | nonNullableDefaultNull (colName : String)
  | nonexistentColumn (colName : String)
  | generatedColumnValue (colName tableName : String)
  | duplicateColumn (colName : String)
  | mismatchValueCount
deriving DecidableEq

/-- Embeds `existsNonZeroValueCount` (part_000): true unless the source is
a `Values` node all of whose tuples are empty. -/
def existsNonZeroValueCount : InsertSource → Bool
  | .values tuples => tuples.any (fun t => t.length ≠ 0)
  | _ => true

/-- `strings.ToLower` (resp. the lowercasing side of `strings.EqualFold`),
modelled as a per-character lowercase map. -/
def strToLower (s : String) : String :=
  String.mk (s.data.map Char.toLower)

/-- The destination-name map lookup of `validateColumns`: find the schema
column whose lowercased name is `nameLower`. -/
def findDstCol (schema : List Column) (nameLower : String) : Option Column :=
  schema.find? (fun c => strToLower c.name == nameLower)

/-- The loop of `validateColumns` (part_000), with the `usedNames` set
carried explicitly.  Per column name, in source order: unknown name,
generated column, duplicate name. -/
def validateColumnsAux (tableName : String) (schema : List Column)
    (used : List String) : List String → Option InsErr
  | [] => none
  | c :: rest =>
    match findDstCol schema c with
    | none => some (.nonexistentColumn c)
    | some dstCol =>
      if dstCol.generated then some (.generatedColumnValue dstCol.name tableName)
      else if used.contains c then some (.duplicateColumn c)
      else validateColumnsAux tableName schema (c :: used) rest

/-- Embeds `validateColumns` (part_000). -/
def validateColumns (tableName : String) (columnNames : List String)
    (dstSchema : List Column) : Option InsErr :=
  validateColumnsAux tableName dstSchema [] columnNames

/-- The schema of a source node (used by the default arm of
`validateValueCount`); an Exchange reports its child's schema. -/
def sourceSchema : InsertSource → List Column
  | .values _ => []
  | .loadData _ schema => schema
  | .selectNode schema => schema
  | .exchange child => sourceSchema child

/-- Embeds `validateValueCount` (part_000). -/
def validateValueCount (columnNames : List String) (values : InsertSource) :
    Option InsErr :=
  let values := match values with | .exchange child => child | v => v
  match values with
  | .values tuples =>
    if tuples.any (fun exprTuple => exprTuple.length ≠ columnNames.length) then
      some .mismatchValueCount
    else none
  | .loadData ldNames schema =>
    let dataColLen := if ldNames.length = 0 then schema.length else ldNames.length
    if columnNames.length ≠ dataColLen then some .mismatchValueCount else none
  | other =>
    if columnNames.length ≠ (sourceSchema other).length then
      some .mismatchValueCount
    else none

/-- A projection expression produced by `wrapRowSource`: a forwarded
source field, a column default (possibly absent), or an auto-increment
generator wrapping either. -/
inductive ProjExpr : Type where
  | getField (idx : Nat) (colName : String)
  | defaultExpr (d : Option DefaultExpr)
  | autoIncrement (inner : ProjExpr)
deriving DecidableEq

/-- The per-destination-column body of the `wrapRowSource` loop
(part_000): forward the matching insert column by field index, otherwise
fail for a non-nullable, default-less, non-auto-increment column or fall
back to the column default; auto-increment columns wrap the result in an
increment generator.  `strings.EqualFold` is modelled as equality of
lowercased names. -/
def wrapColExpr (columnNames : List String) (f : Column) :
    Except InsErr ProjExpr := do
  let base ←
    match columnNames.findIdx? (fun col => strToLower f.name == strToLower col) with
    | some j => pure (ProjExpr.getField j f.name)
    | none =>
      if f.nullable = false ∧ f.default = none ∧ f.autoIncrement = false then
        throw (InsErr.nonNullableDefaultNull f.name)
      else
        pure (ProjExpr.defaultExpr f.default)
  pure (if f.autoIncrement then .autoIncrement base else base)

/-- Embeds `validateRowSource` (part_000): `Values` and `LoadData`
sources are already verified; for SELECT-shaped sources
`assertCompatibleSchemas` checks type compatibility, which no claim
exercises and which is nil in this model. -/
def validateRowSource (_values : InsertSource) (_projExprs : List ProjExpr) :
    Option InsErr :=
  none

/-- Embeds `wrapRowSource` (part_000): builds one projection expression
per destination-schema column. -/
def wrapRowSource (insertSource : InsertSource) (schema : List Column)
    (columnNames : List String) : Except InsErr (List ProjExpr) := do
  let projExprs ← schema.mapM (wrapColExpr columnNames)
  match validateRowSource insertSource projExprs with
  | some e => throw e
  | none => pure projExprs

/-- The C8 claim's failure condition in its own words, on the
(Exchange-unwrapped) source: some VALUES tuple whose length differs from
the number of insert columns, a LOAD DATA column count that differs, or a
SELECT-shaped source whose output schema width differs. -/
def valueCountMismatchSpec (cols : List String) (src : InsertSource) : Prop :=
  match (match src with | .exchange child => child | v => v) with
  | .values tuples => ∃ t ∈ tuples, t.length ≠ cols.length
  | .loadData ldNames schema =>
    cols.length ≠ (if ldNames.length = 0 then schema.length else ldNames.length)
  | other => cols.length ≠ (sourceSchema other).length

/-- Embeds the core of `resolveInsertRows` (part_000) after the
destination and source are resolved: lowercase the given column names,
expand an absent column list to the full schema, then run
`validateColumns`, `validateValueCount` and `wrapRowSource` in order. -/
def resolveInsertRows (tableName : String) (schema : List Column)
    (columnNames : List String) (source : InsertSource) :
    Except InsErr (List ProjExpr) := do
  let cols := columnNames.map strToLower
  let cols ←
    if cols.length = 0 ∧ existsNonZeroValueCount source then
      pure (schema.map Column.name)
    else
      match validateColumns tableName cols schema with
      | some e => throw e
      | none => pure cols
  match validateValueCount cols source with
  | some e => throw e
  | none => pure ()
  wrapRowSource source schema cols

/-- The column list passed to `wrapRowSource` omits column `f`: no name
in the list matches `f.name` case-insensitively. -/
def insOmits (columnNames : List String) (f : Column) : Prop :=
  columnNames.findIdx? (fun col => strToLower f.name == strToLower col) = none

/-- The projection expression `wrapRowSource` builds for column `f` in
the non-error cases: the matching source field, or the column default,
wrapped in an auto-increment generator when `f` is auto-increment. -/
def expectedInsertProj (columnNames : List String) (f : Column) : ProjExpr :=
  let base :=
    match columnNames.findIdx? (fun col => strToLower f.name == strToLower col) with
    | some j => ProjExpr.getField j f.name
    | none => ProjExpr.defaultExpr f.default
  if f.autoIncrement then .autoIncrement base else base

/-! ## ST_AREA (src/unnamed/part_002)

Embeds `calculateArea` and `Area.Eval`.  Go float64 coordinates are
modelled as exact rationals: no branch of the source depends on rounding,
and no claim distinguishes exact from rounded arithmetic. -/

/-- A spatial point (`sql.Point`). -/
structure Point : Type where
  x : ℚ
  y : ℚ
deriving DecidableEq

/-- A spatial line string (`sql.LineString`). -/
structure LineString : Type where
  points : List Point
deriving DecidableEq

/-- A spatial value as consumed by `Area.Eval`: a polygon (list of rings)
or one of the non-polygon spatial values that hit the type-assertion
failure arm. -/
inductive GeoVal : Type where
  | polygon (lines : List LineString)
  | point (p : Point)
  | linestring (l : LineString)
deriving DecidableEq

/-- The error of `Area.Eval` for non-polygon arguments. -/
inductive AreaErr : Type where
  | invalidAreaArgument
deriving DecidableEq

/-- The `for i := 0; i < len(l.Points)-1` loop of `calculateArea`: the
signed shoelace sum over consecutive point pairs. -/
def shoelaceSum (ps : List Point) : ℚ :=
  ((ps.zip ps.tail).map (fun pq => pq.1.x * pq.2.y - pq.1.y * pq.2.x)).sum

/-- Embeds `calculateArea` (part_002): half the absolute value of the
shoelace sum of one ring. -/
def calculateArea (l : LineString) : ℚ :=
  let area := shoelaceSum l.points
  let area := if area < 0 then -area else area
  area / 2

/-- The `for i, l := range p.Lines` accumulation of `Area.Eval`: the
first ring's area counts positively, every later ring negatively. -/
def totalAreaLoop (lines : List LineString) : ℚ :=
  (lines.enum.map (fun il =>
    let area := calculateArea il.2
    if il.1 ≠ 0 then -area else area)).sum

/-- Embeds `Area.Eval` (part_002): NULL argument yields NULL, a
non-polygon argument yields `ErrInvalidAreaArgument`, a polygon yields
the accumulated ring areas. -/
def AreaEval (v : Option GeoVal) : Except AreaErr (Option ℚ) :=
  match v with
  | none => .ok none
  | some (.polygon lines) => .ok (some (totalAreaLoop lines))
  | some _ => .error .invalidAreaArgument

/-! ## Correlated-subquery scenario (C9)

Modelled from the spec: the analyzer and executor that run
`SELECT pk, (SELECT max(pk) FROM one_pk WHERE pk < opk.pk) FROM one_pk opk
ORDER BY 1` are not part of the source slice (part_003 only records the
expected rows).  Following §4.2 (a correlated subquery is fully evaluated
once per outer row), §4.4 (MAX over an empty input returns NULL; Sort
orders by the ORDER BY comparator) and the scenario itself, the query is
modelled as a per-outer-row MAX over the filtered table, followed by a
sort on the first projected column. -/

/-- The `one_pk` table of the scenario, holding pk values 0..3. -/
def onePkRows : List Int := [0, 1, 2, 3]

/-- Modelled from the spec: the correlated scalar subquery
`SELECT max(pk) FROM one_pk WHERE pk < opk.pk`, evaluated for one outer
row; `MAX` of an empty set is NULL (`none`). -/
def maxPkBelow (rows : List Int) (opk : Int) : Option Int :=
  (rows.filter (fun pk => pk < opk)).max?

/-- Modelled from the spec: the projection
`SELECT pk, (subquery)` evaluated once per outer row. -/
def correlatedQueryRows (rows : List Int) : List (Int × Option Int) :=
  rows.map (fun pk => (pk, maxPkBelow rows pk))

/-- Modelled from the spec: `ORDER BY 1` — a stable sort on the first
projected column, ascending. -/
def orderByFirst (rs : List (Int × Option Int)) : List (Int × Option Int) :=
  rs.insertionSort (fun a b => a.1 ≤ b.1)

/-! ## JSON documents (sql/types)

Modelled from the spec: the JSON document implementation
(sql/types/json*.go) is not part of the source slice — only its test
file json_test.go is.  JSON values follow §4.1: the type-precedence list
BOOLEAN, ARRAY, OBJECT, STRING, DOUBLE, NULL with recursive element
comparison; serialization to MySQL's printed form (sorted keys, a space
after every comma and colon); mutations returning (new_doc, changed).
Two representation choices: JSON numbers are modelled as integers (every
value the claims exercise is integral), and Go's unordered
`map[string]interface{}` objects are modelled as key-sorted association
lists — parsing sorts each object's fields (map semantics, last
duplicate key wins) and serialization prints the stored (sorted) order.
Serializer escaping is not modelled: canonical strings are quote-free. -/

/-- Modelled from the spec: a JSON value. -/
inductive JVal : Type where
  | jnull
  | jbool (b : Bool)
  | num (n : Int)
  | str (s : String)
  | arr (elems : List JVal)
  | obj (fields : List (String × JVal))

/-- String content free of the quote delimiter (escaping not modelled). -/
def noQuote (s : String) : Bool :=
  s.data.all (fun c => c ≠ '"')

/-- Lexicographic strict order on character lists, by code point. -/
def charListLtB : List Char → List Char → Bool
  | [], [] => false
  | [], _ :: _ => true
  | _ :: _, [] => false
  | a :: as, b :: bs =>
    if a.toNat < b.toNat then true
    else if b.toNat < a.toNat then false
    else charListLtB as bs

/-- Lexicographic strict order on strings (MySQL's binary collation on
the code points, which every claimed comparison exercises). -/
def strLtB (a b : String) : Bool := charListLtB a.data b.data

/-- The object fields are strictly sorted by key (adjacent chain). -/
def keysSorted : List (String × JVal) → Bool
  | [] => true
  | [_] => true
  | a :: b :: fs => strLtB a.1 b.1 && keysSorted (b :: fs)

mutual
/-- A canonical JSON value: quote-free strings, and every object's
fields strictly sorted by key (the invariant `jsonParse` establishes). -/
def canonB : JVal → Bool
  | .jnull => true
  | .jbool _ => true
  | .num _ => true
  | .str s => noQuote s
  | .arr xs => canonListB xs
  | .obj fs => keysSorted fs && canonFieldsB fs

/-- All array elements canonical. -/
def canonListB : List JVal → Bool
  | [] => true
  | x :: xs => canonB x && canonListB xs

/-- All field keys quote-free and all field values canonical. -/
def canonFieldsB : List (String × JVal) → Bool
  | [] => true
  | (k, v) :: fs => noQuote k && canonB v && canonFieldsB fs
end

/-- A decimal digit character. -/
def digitChar (d : Nat) : Char := Char.ofNat ('0'.toNat + d)

/-- Decimal digits of a natural number, most significant first
(fuel-based so that the kernel can evaluate it; `natChars` supplies
sufficient fuel). -/
def natCharsAux : Nat → Nat → List Char
  | 0, _ => []
  | fuel + 1, n =>
    if n < 10 then [digitChar n] else natCharsAux fuel (n / 10) ++ [digitChar (n % 10)]

/-- Decimal digits of a natural number. -/
def natChars (n : Nat) : List Char := natCharsAux (n + 1) n

/-- Decimal representation of an integer. -/
def intChars (n : Int) : List Char :=
  if n < 0 then '-' :: natChars n.natAbs else natChars n.toNat

mutual
/-- Modelled from the spec: serialization to MySQL's printed form —
stored (sorted) key order, `", "` after every comma, `": "` after every
colon. -/
def serializeChars : JVal → List Char
  | .jnull => ['n', 'u', 'l', 'l']
  | .jbool true => ['t', 'r', 'u', 'e']
  | .jbool false => ['f', 'a', 'l', 's', 'e']
  | .num n => intChars n
  | .str s => '"' :: (s.data ++ ['"'])
  | .arr xs => '[' :: (serializeElems xs ++ [']'])
  | .obj fs => '\x7b' :: (serializeFields fs ++ ['\x7d'])

/-- Array elements joined by `", "`. -/
def serializeElems : List JVal → List Char
  | [] => []
  | [x] => serializeChars x
  | x :: xs => serializeChars x ++ (',' :: ' ' :: serializeElems xs)

/-- Object fields printed as `"key": value`, joined by `", "`. -/
def serializeFields : List (String × JVal) → List Char
  | [] => []
  | [(k, v)] => '"' :: (k.data ++ ('"' :: ':' :: ' ' :: serializeChars v))
  | (k, v) :: fs =>
    '"' :: (k.data ++ ('"' :: ':' :: ' ' :: serializeChars v)) ++
      (',' :: ' ' :: serializeFields fs)
end

/-- The serialized document as a string. -/
def jsonSerialize (x : JVal) : String := String.mk (serializeChars x)

/-- JSON insignificant whitespace. -/
def isWsChar (c : Char) : Bool := c = ' ' || c = '\t' || c = '\n' || c = '\r'

/-- Drop leading insignificant whitespace. -/
def skipWs : List Char → List Char
  | c :: cs => if isWsChar c then skipWs cs else c :: cs
  | [] => []

/-- Maximal-munch decimal number scanner for the JSON parser. -/
def parseNatAux (acc : Nat) : List Char → Nat × List Char
  | c :: cs => if c.isDigit then parseNatAux (10 * acc + digitVal c) cs else (acc, c :: cs)
  | [] => (acc, [])

/-- Scan a quoted string body up to the closing quote. -/
def takeStrAux (acc : List Char) : List Char → Option (String × List Char)
  | [] => none
  | c :: cs => if c = '"' then some (String.mk acc.reverse, cs) else takeStrAux (c :: acc) cs

/-- Insert a field into a key-sorted association list, replacing an
equal key (Go map assignment semantics). -/
def insertField (k : String) (v : JVal) : List (String × JVal) → List (String × JVal)
  | [] => [(k, v)]
  | (k2, v2) :: fs =>
    if strLtB k k2 then (k, v) :: (k2, v2) :: fs
    else if k = k2 then (k, v) :: fs
    else (k2, v2) :: insertField k v fs

/-- Build the sorted-map representation of a parsed field list. -/
def normFields (fs : List (String × JVal)) : List (String × JVal) :=
  fs.foldl (fun acc kv => insertField kv.1 kv.2 acc) []

mutual
/-- Modelled from the spec: a JSON parser (fuel-based recursion;
`jsonParse` supplies fuel sufficient for any input of its length).
Objects are normalized to sorted-map form by `normFields`. -/
def parseVal : Nat → List Char → Option (JVal × List Char)
  | 0, _ => none
  | fuel + 1, cs0 =>
    match skipWs cs0 with
    | [] => none
    | c :: cs =>
      if c = 'n' then
        match cs with
        | 'u' :: 'l' :: 'l' :: rest => some (.jnull, rest)
        | _ => none
      else if c = 't' then
        match cs with
        | 'r' :: 'u' :: 'e' :: rest => some (.jbool true, rest)
        | _ => none
      else if c = 'f' then
        match cs with
        | 'a' :: 'l' :: 's' :: 'e' :: rest => some (.jbool false, rest)
        | _ => none
      else if c = '"' then
        match takeStrAux [] cs with
        | some (s, rest) => some (.str s, rest)
        | none => none
      else if c = '-' then
        match cs with
        | d :: _ =>
          if d.isDigit then
            let (m, rest) := parseNatAux 0 cs
            some (.num (-(m : Int)), rest)
          else none
        | [] => none
      else if c.isDigit then
        let (m, rest) := parseNatAux 0 (c :: cs)
        some (.num (m : Int), rest)
      else if c = '[' then
        match skipWs cs with
        | c2 :: rest2 =>
          if c2 = ']' then some (.arr [], rest2)
          else
            match parseElems fuel (c2 :: rest2) with
            | some (xs, rest) => some (.arr xs, rest)
            | none => none
        | [] => none
      else if c = '\x7b' then
        match skipWs cs with
        | c2 :: rest2 =>
          if c2 = '\x7d' then some (.obj [], rest2)
          else
            match parseFields fuel (c2 :: rest2) with
            | some (fs, rest) => some (.obj (normFields fs), rest)
            | none => none
        | [] => none
      else none

/-- Parse `elem (, elem)* ]`, consuming the closing bracket. -/
def parseElems : Nat → List Char → Option (List JVal × List Char)
  | 0, _ => none
  | fuel + 1, cs =>
    match parseVal fuel cs with
    | none => none
    | some (v, r) =>
      match skipWs r with
      | c :: r2 =>
        if c = ',' then
          match parseElems fuel r2 with
          | some (vs, r3) => some (v :: vs, r3)
          | none => none
        else if c = ']' then some ([v], r2)
        else none
      | [] => none

/-- Parse `"key": value (, "key": value)* }`, consuming the closing
brace, returning fields in textual order. -/
def parseFields : Nat → List Char → Option (List (String × JVal) × List Char)
  | 0, _ => none
  | fuel + 1, cs =>
    match skipWs cs with
    | c :: r =>
      if c = '"' then
        match takeStrAux [] r with
        | some (k, r1) =>
          match skipWs r1 with
          | c2 :: r2 =>
            if c2 = ':' then
              match parseVal fuel r2 with
              | some (v, r3) =>
                match skipWs r3 with
                | c3 :: r4 =>
                  if c3 = ',' then
                    match parseFields fuel r4 with
                    | some (fs, r5) => some ((k, v) :: fs, r5)
                    | none => none
                  else if c3 = '\x7d' then some ([(k, v)], r4)
                  else none
                | [] => none
              | none => none
            else none
          | [] => none
        | none => none
      else none
    | [] => none
end

/-- Modelled from the spec: parse one JSON document, requiring the whole
input to be consumed (modulo trailing whitespace). -/
def jsonParse (s : String) : Option JVal :=
  match parseVal (s.length + 1) s.data with
  | some (v, rest) => if skipWs rest = [] then some v else none
  | none => none

/-- A trailing-character list that cannot extend a just-parsed number:
empty, or starting with a non-digit. -/
def restOkB : List Char → Bool
  | [] => true
  | c :: _ => !c.isDigit

mutual
/-- Parser fuel sufficient for a value: one unit per `parseVal`,
`parseElems` or `parseFields` call along any call chain. -/
def fuelNeed : JVal → Nat
  | .arr xs => 1 + fuelNeedElems xs
  | .obj fs => 1 + fuelNeedFields fs
  | _ => 1

/-- Fuel sufficient for an element list (with its closing bracket). -/
def fuelNeedElems : List JVal → Nat
  | [] => 0
  | x :: xs => 1 + max (fuelNeed x) (fuelNeedElems xs)

/-- Fuel sufficient for a field list (with its closing brace). -/
def fuelNeedFields : List (String × JVal) → Nat
  | [] => 0
  | (_, v) :: fs => 1 + max (fuelNeed v) (fuelNeedFields fs)
end

/-- The precedence rank of a JSON value's class: BOOLEAN, ARRAY, OBJECT,
STRING, DOUBLE, NULL — highest first (§4.1). -/
def jtypeRank : JVal → Nat
  | .jbool _ => 5
  | .arr _ => 4
  | .obj _ => 3
  | .str _ => 2
  | .num _ => 1
  | .jnull => 0

/-- Three-way comparison of integers as -1/0/1. -/
def intCmp (a b : Int) : Int := if a < b then -1 else if b < a then 1 else 0

/-- Three-way comparison of strings as -1/0/1. -/
def strCmp (a b : String) : Int :=
  if strLtB a b then -1 else if strLtB b a then 1 else 0

/-- Three-way comparison of booleans (false < true). -/
def boolCmp (a b : Bool) : Int := if a = b then 0 else if b then -1 else 1

mutual
/-- Modelled from the spec: JSON comparison — the type-precedence list
decides values of different classes; equal classes compare recursively
(arrays lexicographically; objects first by field count, then by sorted
keys and values pairwise, matching the repository's tests). -/
def jcompare (a b : JVal) : Int :=
  match a, b with
  | .jbool x, .jbool y => boolCmp x y
  | .arr xs, .arr ys => jcompareList xs ys
  | .obj fs, .obj gs =>
    if fs.length ≠ gs.length then (if fs.length < gs.length then -1 else 1)
    else jcompareFields fs gs
  | .str s, .str t => strCmp s t
  | .num m, .num n => intCmp m n
  | .jnull, .jnull => 0
  | a, b => if jtypeRank a < jtypeRank b then -1 else 1

/-- Lexicographic comparison of JSON arrays. -/
def jcompareList : List JVal → List JVal → Int
  | [], [] => 0
  | [], _ :: _ => -1
  | _ :: _, [] => 1
  | x :: xs, y :: ys =>
    let c := jcompare x y
    if c ≠ 0 then c else jcompareList xs ys

/-- Pairwise comparison of equally-sized JSON objects: keys first, then
values. -/
def jcompareFields : List (String × JVal) → List (String × JVal) → Int
  | [], [] => 0
  | [], _ :: _ => -1
  | _ :: _, [] => 1
  | (k1, v1) :: fs, (k2, v2) :: gs =>
    let ck := strCmp k1 k2
    if ck ≠ 0 then ck
    else
      let cv := jcompare v1 v2
      if cv ≠ 0 then cv else jcompareFields fs gs
end

/-- Whether an object field list binds key `k`. -/
def objContainsKey (fs : List (String × JVal)) (k : String) : Bool :=
  fs.any (fun p => p.1 == k)

/-- Replace the value bound to key `k` (leaving other fields alone). -/
def replaceField (k : String) (v : JVal) : List (String × JVal) → List (String × JVal)
  | [] => []
  | (k2, v2) :: fs =>
    if k2 == k then (k, v) :: replaceField k v fs
    else (k2, v2) :: replaceField k v fs

/-- Field lookup on an object document. -/
def jsonLookup (doc : JVal) (k : String) : Option JVal :=
  match doc with
  | .obj fs => (fs.find? (fun p => p.1 == k)).map (fun p => p.2)
  | _ => none

/-- Modelled from the spec: `JSON_SET` at a top-level field path `$.f` —
bind the field whether or not it is present (changed); a non-object
document is returned unchanged. -/
def jsonObjSet (doc : JVal) (k : String) (v : JVal) : JVal × Bool :=
  match doc with
  | .obj fs => (.obj (insertField k v fs), true)
  | other => (other, false)

/-- Modelled from the spec: `JSON_INSERT` at a top-level field path
`$.f` — add the field only when absent; otherwise unchanged. -/
def jsonObjInsert (doc : JVal) (k : String) (v : JVal) : JVal × Bool :=
  match doc with
  | .obj fs =>
    if objContainsKey fs k then (.obj fs, false)
    else (.obj (insertField k v fs), true)
  | other => (other, false)

/-- Modelled from the spec: `JSON_REPLACE` at a top-level field path
`$.f` — update the field only when present; otherwise unchanged. -/
def jsonObjReplace (doc : JVal) (k : String) (v : JVal) : JVal × Bool :=
  match doc with
  | .obj fs =>
    if objContainsKey fs k then (.obj (replaceField k v fs), true)
    else (.obj fs, false)
  | other => (other, false)

end GMS

/-! ### Claim C1 -/

/-- C1 counterexample: the claim states that `CompareNulls` reports a NULL
first operand as ordered *less than* (i.e. returns -1 against) a non-NULL
second operand.  The source returns +1 there: at a = NULL, b = 0 the
returned ordering is 1, not -1. -/
theorem C1_counterexample :
    GMS.CompareNulls (none : Option Int) (some 0) = (true, 1) ∧
    ¬ (GMS.CompareNulls (none : Option Int) (some 0)).2 = -1 := by
  constructor
  · rfl
  · decide

/-- C1 (amended): `CompareNulls` reports both-NULL as equal, a NULL first
operand as ordered *greater* than a non-NULL second operand (+1), a
non-NULL first operand as ordered *less* than a NULL second operand (-1),
and two non-NULL operands as not-null-comparable (false, 0). -/
theorem C1_compareNulls_ordering {α : Type} :
    GMS.CompareNulls (none : Option α) none = (true, 0) ∧
    (∀ v : α, GMS.CompareNulls none (some v) = (true, 1)) ∧
    (∀ v : α, GMS.CompareNulls (some v) none = (true, -1)) ∧
    (∀ v w : α, GMS.CompareNulls (some v) (some w) = (false, 0)) := by
  refine ⟨rfl, fun v => rfl, fun v => rfl, fun v w => rfl⟩

/-! ### Claim C2 -/

/-- C2 counterexample: the claim predicts that the string `'20a'` converts
to BOOL as true (leading-digit parse 20, non-zero).  The source parses the
whole string with `strconv.ParseFloat`, which fails on `'20a'`, so the
conversion returns false. -/
theorem C2_counterexample :
    GMS.ConvertToBool (GMS.GoVal.vStr "20a") = .ok false ∧
    GMS.ConvertToBool (GMS.GoVal.vStr "20a") ≠ .ok true := by
  refine ⟨rfl, fun h => ?_⟩
  have hb : (false : Bool) = true := by
    have h0 : (Except.ok false : Except String Bool) = .ok true := by
      rw [← h]; rfl
    exact Except.ok.inj h0
  exact Bool.noConfusion hb

/-- C2 (amended): conversion to BOOL maps every non-zero numeric to true;
a string converts by a whole-string float parse (not a leading-digit
parse), so `'20a'`, `'a'` and `''` all convert to false while a string
that fully parses to a non-zero float converts to true; converting NULL
(and any unsupported Go type) fails with an error. -/
theorem C2_convertToBool_amended :
    (∀ n : Int, n ≠ 0 →
      GMS.ConvertToBool (.vInt n) = .ok true ∧
      GMS.ConvertToBool (.vInt64 n) = .ok true ∧
      GMS.ConvertToBool (.vInt32 n) = .ok true ∧
      GMS.ConvertToBool (.vInt16 n) = .ok true ∧
      GMS.ConvertToBool (.vInt8 n) = .ok true ∧
      GMS.ConvertToBool (.vDuration n) = .ok true ∧
      GMS.ConvertToBool (.vTime n) = .ok true) ∧
    (∀ n : Nat, n ≠ 0 →
      GMS.ConvertToBool (.vUint n) = .ok true ∧
      GMS.ConvertToBool (.vUint64 n) = .ok true ∧
      GMS.ConvertToBool (.vUint32 n) = .ok true ∧
      GMS.ConvertToBool (.vUint16 n) = .ok true ∧
      GMS.ConvertToBool (.vUint8 n) = .ok true) ∧
    (∀ q : ℚ, q ≠ 0 →
      GMS.ConvertToBool (.vFloat32 q) = .ok true ∧
      GMS.ConvertToBool (.vFloat64 q) = .ok true) ∧
    (∀ s : String, ∀ q : ℚ, GMS.goParseFloat s = some q → q ≠ 0 →
      GMS.ConvertToBool (.vStr s) = .ok true) ∧
    (∀ s : String, GMS.goParseFloat s = none →
      GMS.ConvertToBool (.vStr s) = .ok false) ∧
    GMS.ConvertToBool (.vStr "20a") = .ok false ∧
    GMS.ConvertToBool (.vStr "a") = .ok false ∧
    GMS.ConvertToBool (.vStr "") = .ok false ∧
    GMS.ConvertToBool .vNil = .error "unable to cast nil to bool" := by
  refine ⟨fun n h => ?_, fun n h => ?_, fun q h => ?_,
    fun s q hp hq => ?_, fun s hp => ?_, rfl, rfl, rfl, rfl⟩
  · simp [GMS.ConvertToBool, GMS.int64ToBool, h]
  · have h' : (n : Int) ≠ 0 := by exact_mod_cast h
    simp [GMS.ConvertToBool, GMS.int64ToBool, GMS.uint64ToBool, h, h']
  · simp [GMS.ConvertToBool, GMS.float64ToBool, h]
  · simp [GMS.ConvertToBool, hp, hq]
  · simp [GMS.ConvertToBool, hp]

/-- C2 witness: the amended theorem instantiated at the non-zero integer 3
and at the fully-numeric string `"20"`. -/
theorem C2_witness :
    GMS.ConvertToBool (.vInt64 3) = .ok true ∧
    GMS.ConvertToBool (.vStr "20") = .ok true := by
  have hp : GMS.goParseFloat "20" = some 20 := by
    simp [GMS.goParseFloat, GMS.scanDigits, GMS.digitVal]
  exact ⟨(C2_convertToBool_amended.1 3 (by decide)).2.1,
    C2_convertToBool_amended.2.2.2.1 "20" 20 hp (by norm_num)⟩

/-! ### Claim C7 -/

/-- C7: `ErrIfMismatchedColumns t1 t2` returns an `ErrInvalidOperandColumns`
error if and only if the column counts of t1 and t2 differ, or both are
tuple types and some corresponding pair of subtypes recursively has
mismatched column counts; otherwise it returns nil.  The right-hand side
`specMismatched` is the claim's condition written in its own words. -/
theorem C7_errIfMismatchedColumns_iff :
    ∀ t1 t2 : GMS.SqlType,
    (GMS.ErrIfMismatchedColumns t1 t2).isSome = GMS.specMismatched t1 t2 := by
  refine GMS.ErrIfMismatchedColumns.induct
    (fun t1 t2 => (GMS.ErrIfMismatchedColumns t1 t2).isSome = GMS.specMismatched t1 t2)
    (fun l1 l2 => (GMS.errIfMismatchedColumnsList l1 l2).isSome = GMS.specMismatchedAny l1 l2)
    ?_ ?_ ?_ ?_ ?_ ?_
  · intro t t2 h
    unfold GMS.ErrIfMismatchedColumns GMS.specMismatched
    simp [h, bne_iff_ne]
  · intro l1 l2 h ih
    have h2 : GMS.NumColumns (GMS.SqlType.tuple l1) = GMS.NumColumns (GMS.SqlType.tuple l2) := by
      by_contra hc; exact h hc
    unfold GMS.ErrIfMismatchedColumns GMS.specMismatched
    simp [h, ih, h2]
  · intro t t2 h hnot
    have h2 : GMS.NumColumns t = GMS.NumColumns t2 := by by_contra hc; exact h hc
    cases t with
    | base nm =>
      unfold GMS.ErrIfMismatchedColumns GMS.specMismatched
      cases t2 <;> simp [h, h2]
    | tuple l1 =>
      cases t2 with
      | base nm2 =>
        unfold GMS.ErrIfMismatchedColumns GMS.specMismatched
        simp [h, h2]
      | tuple l2 => exact absurd rfl (fun hh => hnot l1 l2 hh rfl)
  · intro a as' b bs e he ih
    have hsp : GMS.specMismatched a b = true := by rw [← ih, he]; rfl
    unfold GMS.errIfMismatchedColumnsList GMS.specMismatchedAny
    simp [he, hsp]
  · intro a as' b bs he ih1 ih2
    have hsp : GMS.specMismatched a b = false := by rw [← ih1, he]; rfl
    unfold GMS.errIfMismatchedColumnsList GMS.specMismatchedAny
    simp [he, ih2, hsp]
  · intro t x hnot
    cases t with
    | nil =>
      unfold GMS.errIfMismatchedColumnsList GMS.specMismatchedAny
      cases x <;> simp
    | cons a as' =>
      cases x with
      | nil =>
        unfold GMS.errIfMismatchedColumnsList GMS.specMismatchedAny
        simp
      | cons b bs => exact absurd rfl (fun hh => hnot a as' b bs hh rfl)

/-! ### Claim C8 -/

/-- C8: `validateValueCount` fails with `ErrInsertIntoMismatchValueCount`
if and only if the source row width mismatches the insert column list —
some VALUES tuple whose length differs from the number of insert columns,
a LOAD DATA column count that differs, or a SELECT source whose output
schema width differs — and otherwise the value-count check passes
(returns nil). -/
theorem C8_validateValueCount_iff :
    ∀ (cols : List String) (src : GMS.InsertSource),
    (GMS.validateValueCount cols src = some GMS.InsErr.mismatchValueCount ↔
      GMS.valueCountMismatchSpec cols src) ∧
    (GMS.validateValueCount cols src = none ↔
      ¬ GMS.valueCountMismatchSpec cols src) := by
  intro cols src
  cases src with
  | values tuples => simp [GMS.validateValueCount, GMS.valueCountMismatchSpec]
  | loadData ldNames schema =>
    simp [GMS.validateValueCount, GMS.valueCountMismatchSpec]
  | selectNode schema =>
    simp [GMS.validateValueCount, GMS.valueCountMismatchSpec, GMS.sourceSchema]
  | exchange child =>
    cases child with
    | values tuples => simp [GMS.validateValueCount, GMS.valueCountMismatchSpec]
    | loadData ldNames schema =>
      simp [GMS.validateValueCount, GMS.valueCountMismatchSpec]
    | selectNode schema =>
      simp [GMS.validateValueCount, GMS.valueCountMismatchSpec, GMS.sourceSchema]
    | exchange c2 =>
      simp [GMS.validateValueCount, GMS.valueCountMismatchSpec, GMS.sourceSchema]

/-! ### Monad and mapM helper lemmas (shared) -/

namespace GMS

@[simp] theorem except_ok_bind {α β ε : Type} (a : α) (f : α → Except ε β) :
    (Except.ok a >>= f) = f a := rfl

@[simp] theorem except_error_bind {α β ε : Type} (e : ε) (f : α → Except ε β) :
    ((Except.error e : Except ε α) >>= f) = .error e := rfl

@[simp] theorem except_pure {α ε : Type} (a : α) :
    (pure a : Except ε α) = .ok a := rfl

@[simp] theorem except_throw {α ε : Type} (e : ε) :
    (throw e : Except ε α) = .error e := rfl

theorem mapM_except_ok {α β ε : Type} (g : α → Except ε β) (h : α → β) :
    ∀ l : List α, (∀ a ∈ l, g a = .ok (h a)) → l.mapM g = .ok (l.map h) := by
  intro l
  induction l with
  | nil => intro _; rfl
  | cons a l ih =>
    intro hall
    have ha : g a = .ok (h a) := hall a (by simp)
    have hl : l.mapM g = .ok (l.map h) := ih (fun x hx => hall x (by simp [hx]))
    rw [List.mapM_cons, ha, hl]
    rfl

theorem mapM_except_error {α β ε : Type} (g : α → Except ε β) :
    ∀ l : List α, (∃ a ∈ l, ∃ e, g a = .error e) →
    ∃ e, l.mapM g = .error e ∧ ∃ a ∈ l, g a = .error e := by
  intro l
  induction l with
  | nil => rintro ⟨a, ha, _⟩; exact absurd ha (List.not_mem_nil a)
  | cons a l ih =>
    rintro ⟨b, hb, e, he⟩
    cases hga : g a with
    | error ea =>
      refine ⟨ea, ?_, a, by simp, hga⟩
      rw [List.mapM_cons, hga]
      rfl
    | ok va =>
      have hbl : b ∈ l := by
        rcases List.mem_cons.mp hb with h | h
        · exact absurd (h ▸ he) (by simp [hga])
        · exact h
      obtain ⟨e', hmape, c, hc, hgc⟩ := ih ⟨b, hbl, e, he⟩
      refine ⟨e', ?_, c, by simp [hc], hgc⟩
      rw [List.mapM_cons, hga, hmape]
      rfl

theorem wrapColExpr_ok (cols : List String) (f : Column)
    (h : insOmits cols f → (f.nullable = true ∨ f.default ≠ none ∨ f.autoIncrement = true)) :
    wrapColExpr cols f = .ok (expectedInsertProj cols f) := by
  unfold wrapColExpr expectedInsertProj
  cases hf : cols.findIdx? (fun col => strToLower f.name == strToLower col) with
  | some j => rfl
  | none =>
    have hd := h hf
    have hcond : ¬(f.nullable = false ∧ f.default = none ∧ f.autoIncrement = false) := by
      rintro ⟨h1, h2, h3⟩
      rcases hd with h | h | h <;> simp_all
    simp [hcond]

theorem wrapColExpr_bad (cols : List String) (f : Column)
    (hom : insOmits cols f) (h1 : f.nullable = false) (h2 : f.default = none)
    (h3 : f.autoIncrement = false) :
    wrapColExpr cols f = .error (.nonNullableDefaultNull f.name) := by
  unfold wrapColExpr
  rw [hom]
  simp [h1, h2, h3]

theorem wrapColExpr_error_kind (cols : List String) (f : Column) (e : InsErr)
    (h : wrapColExpr cols f = .error e) : e = .nonNullableDefaultNull f.name := by
  unfold wrapColExpr at h
  cases hf : cols.findIdx? (fun col => strToLower f.name == strToLower col) with
  | some j => rw [hf] at h; simp at h
  | none =>
    rw [hf] at h
    by_cases hcond : f.nullable = false ∧ f.default = none ∧ f.autoIncrement = false
    · simp [hcond] at h
      exact h.symm
    · simp [hcond] at h

theorem validateColumnsAux_generated (tableName : String) (schema : List Column) :
    ∀ (cols used : List String),
    (∀ c ∈ cols, (findDstCol schema c).isSome) →
    (∀ c ∈ cols, c ∉ used) →
    cols.Nodup →
    (∃ c ∈ cols, ∃ dc, findDstCol schema c = some dc ∧ dc.generated = true) →
    ∃ nm, validateColumnsAux tableName schema used cols =
      some (.generatedColumnValue nm tableName) := by
  intro cols
  induction cols with
  | nil =>
    rintro used _ _ _ ⟨c, hc, _⟩
    exact absurd hc (List.not_mem_nil c)
  | cons c rest ih =>
    rintro used hex hused hnd ⟨c0, hc0, dc0, hfind0, hgen0⟩
    have hcex : (findDstCol schema c).isSome := hex c (by simp)
    obtain ⟨dc, hdc⟩ := Option.isSome_iff_exists.mp hcex
    by_cases hg : dc.generated = true
    · exact ⟨dc.name, by simp [validateColumnsAux, hdc, hg]⟩
    · have hc0rest : c0 ∈ rest := by
        rcases List.mem_cons.mp hc0 with h | h
        · subst h
          rw [hfind0] at hdc
          cases hdc
          exact absurd hgen0 hg
        · exact h
      have hcnotused : c ∉ used := hused c (by simp)
      obtain ⟨nm, hnm⟩ := ih (c :: used)
        (fun x hx => hex x (by simp [hx]))
        (fun x hx => by
          have hxne : x ≠ c := fun hxc => (List.nodup_cons.mp hnd).1 (hxc ▸ hx)
          have hxnu : x ∉ used := hused x (by simp [hx])
          simp [hxne, hxnu])
        (List.nodup_cons.mp hnd).2
        ⟨c0, hc0rest, dc0, hfind0, hgen0⟩
      refine ⟨nm, ?_⟩
      simp [validateColumnsAux, hdc, hg, hcnotused]
      exact hnm

end GMS

/-! ### Claim C3 -/

/-- C3: for an INSERT with an explicit column list, (a) when the list
omits a destination column that is NOT NULL with no default and not
auto-increment, analysis fails with
`ErrInsertIntoNonNullableDefaultNullColumn` before any row flows; (b)
when every omitted column has a default or is auto-increment (or is
nullable), analysis succeeds and the wrapping projection supplies each
omitted column's default expression, wrapped in an increment generator
for auto-increment columns; (c) a generated column named in the column
list fails analysis with `ErrGeneratedColumnValue`. -/
theorem C3_insert_column_list :
    (∀ (tableName : String) (schema : List GMS.Column) (columnNames : List String)
       (source : GMS.InsertSource) (f : GMS.Column),
       columnNames ≠ [] →
       GMS.validateColumns tableName (columnNames.map GMS.strToLower) schema = none →
       GMS.validateValueCount (columnNames.map GMS.strToLower) source = none →
       f ∈ schema →
       GMS.insOmits (columnNames.map GMS.strToLower) f →
       f.nullable = false → f.default = none → f.autoIncrement = false →
       ∃ nm, GMS.resolveInsertRows tableName schema columnNames source =
         .error (.nonNullableDefaultNull nm)) ∧
    (∀ (tableName : String) (schema : List GMS.Column) (columnNames : List String)
       (source : GMS.InsertSource),
       columnNames ≠ [] →
       GMS.validateColumns tableName (columnNames.map GMS.strToLower) schema = none →
       GMS.validateValueCount (columnNames.map GMS.strToLower) source = none →
       (∀ f ∈ schema, GMS.insOmits (columnNames.map GMS.strToLower) f →
         (f.nullable = true ∨ f.default ≠ none ∨ f.autoIncrement = true)) →
       GMS.resolveInsertRows tableName schema columnNames source =
         .ok (schema.map (GMS.expectedInsertProj (columnNames.map GMS.strToLower))) ∧
       (∀ f ∈ schema, GMS.insOmits (columnNames.map GMS.strToLower) f →
         GMS.expectedInsertProj (columnNames.map GMS.strToLower) f =
           if f.autoIncrement then
             GMS.ProjExpr.autoIncrement (.defaultExpr f.default)
           else .defaultExpr f.default)) ∧
    (∀ (tableName : String) (schema : List GMS.Column) (columnNames : List String)
       (source : GMS.InsertSource),
       columnNames ≠ [] →
       (∀ c ∈ columnNames.map GMS.strToLower, (GMS.findDstCol schema c).isSome) →
       (columnNames.map GMS.strToLower).Nodup →
       (∃ c ∈ columnNames.map GMS.strToLower, ∃ dc,
         GMS.findDstCol schema c = some dc ∧ dc.generated = true) →
       ∃ nm, GMS.resolveInsertRows tableName schema columnNames source =
         .error (.generatedColumnValue nm tableName)) := by
  refine ⟨?_, ?_, ?_⟩
  · intro tableName schema columnNames source f hne hvc hvv hmem hom h1 h2 h3
    obtain ⟨e, hmap, c, hc, hgc⟩ :=
      GMS.mapM_except_error (GMS.wrapColExpr (columnNames.map GMS.strToLower)) schema
        ⟨f, hmem, _, GMS.wrapColExpr_bad _ f hom h1 h2 h3⟩
    have hkind := GMS.wrapColExpr_error_kind _ c e hgc
    unfold List.mapM at hmap
    refine ⟨c.name, ?_⟩
    unfold GMS.resolveInsertRows
    simp [hne, hvc, hvv, GMS.wrapRowSource, hmap, hkind]
  · intro tableName schema columnNames source hne hvc hvv homit
    have hmap := GMS.mapM_except_ok (GMS.wrapColExpr (columnNames.map GMS.strToLower))
      (GMS.expectedInsertProj (columnNames.map GMS.strToLower)) schema
      (fun f hf => GMS.wrapColExpr_ok _ f (homit f hf))
    unfold List.mapM at hmap
    constructor
    · unfold GMS.resolveInsertRows
      simp [hne, hvc, hvv, GMS.wrapRowSource, hmap, GMS.validateRowSource]
    · intro f hf hom
      unfold GMS.expectedInsertProj
      rw [hom]
  · intro tableName schema columnNames source hne hex hnd hgen
    obtain ⟨nm, hnm⟩ := GMS.validateColumnsAux_generated tableName schema
      (columnNames.map GMS.strToLower) [] hex (by simp) hnd hgen
    refine ⟨nm, ?_⟩
    unfold GMS.resolveInsertRows
    simp [hne, GMS.validateColumns, hnm]

/-- C3 witness: the three parts of the claim instantiated on a concrete
two-column table `t`: (a) inserting only into `a` of `t(a, b NOT NULL)`;
(b) inserting only into `a` of `t(a, d DEFAULT ...)`; (c) naming the
generated column `g` of `t(a, g GENERATED)` in the column list. -/
theorem C3_witness :
    (∃ nm, GMS.resolveInsertRows "t"
      [GMS.Column.mk "a" false none false false,
       GMS.Column.mk "b" false none false false]
      ["a"] (.values [[.mk]]) = .error (.nonNullableDefaultNull nm)) ∧
    (GMS.resolveInsertRows "t"
      [GMS.Column.mk "a" false none false false,
       GMS.Column.mk "d" false (some (.mk 0)) false false]
      ["a"] (.values [[.mk]]) =
      .ok ([GMS.Column.mk "a" false none false false,
            GMS.Column.mk "d" false (some (.mk 0)) false false].map
        (GMS.expectedInsertProj (["a"].map GMS.strToLower)))) ∧
    (∃ nm, GMS.resolveInsertRows "t"
      [GMS.Column.mk "a" false none false false,
       GMS.Column.mk "g" true none false true]
      ["a", "g"] (.values [[.mk, .mk]]) = .error (.generatedColumnValue nm "t")) := by
  refine ⟨?_, ?_, ?_⟩
  · exact C3_insert_column_list.1 "t" _ ["a"] _
      (GMS.Column.mk "b" false none false false)
      (by decide) (by decide) (by decide) (by decide)
      (by unfold GMS.insOmits; decide) rfl rfl rfl
  · exact (C3_insert_column_list.2.1 "t" _ ["a"] _
      (by decide) (by decide) (by decide)
      (by intro f hf hom
          fin_cases hf <;> (revert hom; unfold GMS.insOmits; decide))).1
  · exact C3_insert_column_list.2.2 "t" _ ["a", "g"] _
      (by decide) (by decide) (by decide)
      ⟨"g", by decide, GMS.Column.mk "g" true none false true, by decide, rfl⟩

/-! ### Claim C10 helper lemmas -/

namespace GMS

theorem enumFrom_area_sum :
    ∀ (rest : List LineString) (k : Nat), 1 ≤ k →
    ((rest.enumFrom k).map (fun il =>
      let area := calculateArea il.2
      if il.1 ≠ 0 then -area else area)).sum = -((rest.map calculateArea).sum) := by
  intro rest
  induction rest with
  | nil => intro k _; simp
  | cons a as ih =>
    intro k hk
    simp only [List.enumFrom_cons, List.map_cons, List.sum_cons]
    rw [ih (k + 1) (by omega)]
    rw [if_pos (show k ≠ 0 by omega)]
    ring

theorem totalAreaLoop_cons (l : LineString) (rest : List LineString) :
    totalAreaLoop (l :: rest) = calculateArea l - (rest.map calculateArea).sum := by
  unfold totalAreaLoop
  rw [List.enum_cons]
  simp only [List.map_cons, List.sum_cons]
  rw [enumFrom_area_sum rest 1 (by omega)]
  rw [if_neg (show ¬(0 ≠ 0) by simp)]
  ring

theorem calculateArea_nonneg (l : LineString) : 0 ≤ calculateArea l := by
  unfold calculateArea
  by_cases h : shoelaceSum l.points < 0
  · simp [h]
    linarith
  · simp [h]
    linarith [not_lt.mp h]

end GMS

/-! ### Claim C10 -/

/-- C10: `Area.Eval` returns NULL without error on a NULL argument,
`ErrInvalidAreaArgument` on every non-NULL non-polygon argument, and on a
polygon the shoelace area of the first ring minus the shoelace areas of
all subsequent rings, where each individual ring's computed area (half
the absolute value of its shoelace sum) is non-negative. -/
theorem C10_st_area :
    GMS.AreaEval none = .ok none ∧
    (∀ g : GMS.GeoVal, (∀ lines, g ≠ .polygon lines) →
      GMS.AreaEval (some g) = .error .invalidAreaArgument) ∧
    (∀ (l : GMS.LineString) (rest : List GMS.LineString),
      GMS.AreaEval (some (.polygon (l :: rest))) =
        .ok (some (GMS.calculateArea l - (rest.map GMS.calculateArea).sum))) ∧
    (∀ l : GMS.LineString, 0 ≤ GMS.calculateArea l) := by
  refine ⟨rfl, ?_, ?_, GMS.calculateArea_nonneg⟩
  · intro g h
    cases g with
    | polygon lines => exact absurd rfl (h lines)
    | point p => rfl
    | linestring l => rfl
  · intro l rest
    simp [GMS.AreaEval, GMS.totalAreaLoop_cons]

/-- C10 witness: a point argument (non-polygon) hits the error arm. -/
theorem C10_witness :
    GMS.AreaEval (some (.point (GMS.Point.mk 0 0))) = .error .invalidAreaArgument :=
  C10_st_area.2.1 (.point (GMS.Point.mk 0 0)) (fun _ h => GMS.GeoVal.noConfusion h)

/-! ### Claim C9 -/

/-- C9: over `one_pk(pk)` with rows 0..3, the query
`SELECT pk, (SELECT max(pk) FROM one_pk WHERE pk < opk.pk) FROM one_pk opk
ORDER BY 1` returns exactly `[[0,NULL],[1,0],[2,1],[3,2]]` in that order:
the correlated scalar subquery is evaluated per outer row, yields NULL
for the smallest pk, and ORDER BY 1 orders by the first projected
column. -/
theorem C9_correlated_subquery :
    GMS.orderByFirst (GMS.correlatedQueryRows GMS.onePkRows) =
      [(0, none), (1, some 0), (2, some 1), (3, some 2)] ∧
    GMS.maxPkBelow GMS.onePkRows 0 = none := by decide

/-! ### JSON order and field-lookup lemmas (shared) -/

namespace GMS

theorem charListLtB_irrefl : ∀ l : List Char, charListLtB l l = false := by
  intro l
  induction l with
  | nil => rfl
  | cons a as ih => simp [charListLtB, ih]

theorem strLtB_irrefl (s : String) : strLtB s s = false :=
  charListLtB_irrefl s.data

theorem insertField_find_self (k : String) (v : JVal) :
    ∀ fs : List (String × JVal),
    (insertField k v fs).find? (fun p => p.1 == k) = some (k, v) := by
  intro fs
  induction fs with
  | nil => simp [insertField]
  | cons p fs ih =>
    obtain ⟨k2, v2⟩ := p
    unfold insertField
    by_cases h2 : k = k2
    · subst h2
      simp [strLtB_irrefl]
    · by_cases h1 : strLtB k k2 = true
      · simp [h1]
      · have hne : (k2 == k) = false := by
          simp
          exact fun hh => h2 hh.symm
        simp [h1, h2, hne, ih]

theorem insertField_find_other (k k' : String) (v : JVal) (hne : k' ≠ k) :
    ∀ fs : List (String × JVal),
    (insertField k v fs).find? (fun p => p.1 == k') = fs.find? (fun p => p.1 == k') := by
  have hkk : (k == k') = false := by
    simp
    exact fun hh => hne hh.symm
  intro fs
  induction fs with
  | nil => simp [insertField, hkk]
  | cons p fs ih =>
    obtain ⟨k2, v2⟩ := p
    unfold insertField
    by_cases h2 : k = k2
    · subst h2
      simp [strLtB_irrefl, hkk]
    · by_cases h1 : strLtB k k2 = true
      · simp [h1, hkk]
      · by_cases h3 : (k2 == k') = true
        · simp [h1, h2, h3]
        · simp [h1, h2, h3, ih]

theorem replaceField_find_self (k : String) (v : JVal) :
    ∀ fs : List (String × JVal), objContainsKey fs k = true →
    (replaceField k v fs).find? (fun p => p.1 == k) = some (k, v) := by
  intro fs
  induction fs with
  | nil => intro h; simp [objContainsKey] at h
  | cons p fs ih =>
    intro h
    obtain ⟨k2, v2⟩ := p
    unfold replaceField
    by_cases h2 : (k2 == k) = true
    · simp [h2]
    · have hrest : objContainsKey fs k = true := by
        simp [objContainsKey] at h ⊢
        rcases h with h | h
        · exact absurd (by simp [h]) h2
        · exact h
      simp [h2, ih hrest]

theorem replaceField_find_other (k k' : String) (v : JVal) (hne : k' ≠ k) :
    ∀ fs : List (String × JVal),
    (replaceField k v fs).find? (fun p => p.1 == k') = fs.find? (fun p => p.1 == k') := by
  have hkk : (k == k') = false := by
    simp
    exact fun hh => hne hh.symm
  intro fs
  induction fs with
  | nil => simp [replaceField]
  | cons p fs ih =>
    obtain ⟨k2, v2⟩ := p
    unfold replaceField
    by_cases h2 : (k2 == k) = true
    · have hk2 : k2 = k := by simpa using h2
      subst hk2
      simp [h2, hkk, ih]
    · by_cases h3 : (k2 == k') = true
      · simp [h2, h3]
      · simp [h2, h3, ih]

end GMS

/-! ### Claim C4 -/

/-- C4: JSON comparison respects the type-precedence list BOOLEAN, ARRAY,
OBJECT, STRING, DOUBLE, NULL (highest first): whenever the two values'
classes differ, compare returns +1 when the left class has higher
precedence and -1 when lower; same-class values compare recursively; in
particular `true > [0]`, `[0] > {"a":0}`,
`{"a":0} > "a"`, `"a" > 0`, and `0 > null`. -/
theorem C4_json_type_precedence :
    (∀ a b : GMS.JVal, GMS.jtypeRank a ≠ GMS.jtypeRank b →
      GMS.jcompare a b = if GMS.jtypeRank a < GMS.jtypeRank b then -1 else 1) ∧
    GMS.jcompare (.jbool true) (.arr [.num 0]) = 1 ∧
    GMS.jcompare (.arr [.num 0]) (.obj [("a", .num 0)]) = 1 ∧
    GMS.jcompare (.obj [("a", .num 0)]) (.str "a") = 1 ∧
    GMS.jcompare (.str "a") (.num 0) = 1 ∧
    GMS.jcompare (.num 0) .jnull = 1 := by
  refine ⟨?_, rfl, rfl, rfl, rfl, rfl⟩
  intro a b h
  cases a <;> cases b <;>
    first
    | exact absurd rfl h
    | (unfold GMS.jcompare; simp [GMS.jtypeRank])

/-- C4 witness: the class-precedence rule instantiated at
`true` vs `0` (BOOLEAN above DOUBLE). -/
theorem C4_witness :
    GMS.jcompare (.jbool true) (.num 0) =
      if GMS.jtypeRank (.jbool true) < GMS.jtypeRank (.num 0) then -1 else 1 :=
  C4_json_type_precedence.1 (.jbool true) (.num 0) (by decide)

/-! ### Claim C6 -/

/-- C6: on a JSON object document and a top-level field path `$.f`, Set
binds the field (changed) whether or not it was present; Insert adds it
only when absent and leaves the document unchanged (`changed = false`)
when present; Replace updates it only when present and leaves the
document unchanged when absent — with all other fields preserved in each
case; in particular `JSON_SET('{"a":1}','$.b',42)` yields
`{"a":1,"b":42}`, `JSON_INSERT('{"a":1}','$.a',42)`
and `JSON_REPLACE('{"a":1}','$.b',42)` leave the document
unchanged. -/
theorem C6_json_mutations :
    (∀ (fs : List (String × GMS.JVal)) (k : String) (v : GMS.JVal),
      (GMS.jsonObjSet (.obj fs) k v).2 = true ∧
      GMS.jsonLookup (GMS.jsonObjSet (.obj fs) k v).1 k = some v ∧
      (∀ k', k' ≠ k → GMS.jsonLookup (GMS.jsonObjSet (.obj fs) k v).1 k' =
        GMS.jsonLookup (.obj fs) k')) ∧
    (∀ (fs : List (String × GMS.JVal)) (k : String) (v : GMS.JVal),
      GMS.objContainsKey fs k = true →
      GMS.jsonObjInsert (.obj fs) k v = (.obj fs, false)) ∧
    (∀ (fs : List (String × GMS.JVal)) (k : String) (v : GMS.JVal),
      GMS.objContainsKey fs k = false →
      (GMS.jsonObjInsert (.obj fs) k v).2 = true ∧
      GMS.jsonLookup (GMS.jsonObjInsert (.obj fs) k v).1 k = some v ∧
      (∀ k', k' ≠ k → GMS.jsonLookup (GMS.jsonObjInsert (.obj fs) k v).1 k' =
        GMS.jsonLookup (.obj fs) k')) ∧
    (∀ (fs : List (String × GMS.JVal)) (k : String) (v : GMS.JVal),
      GMS.objContainsKey fs k = true →
      (GMS.jsonObjReplace (.obj fs) k v).2 = true ∧
      GMS.jsonLookup (GMS.jsonObjReplace (.obj fs) k v).1 k = some v ∧
      (∀ k', k' ≠ k → GMS.jsonLookup (GMS.jsonObjReplace (.obj fs) k v).1 k' =
        GMS.jsonLookup (.obj fs) k')) ∧
    (∀ (fs : List (String × GMS.JVal)) (k : String) (v : GMS.JVal),
      GMS.objContainsKey fs k = false →
      GMS.jsonObjReplace (.obj fs) k v = (.obj fs, false)) ∧
    GMS.jsonObjSet (.obj [("a", .num 1)]) "b" (.num 42) =
      (.obj [("a", .num 1), ("b", .num 42)], true) ∧
    GMS.jsonObjInsert (.obj [("a", .num 1)]) "a" (.num 42) =
      (.obj [("a", .num 1)], false) ∧
    GMS.jsonObjReplace (.obj [("a", .num 1)]) "b" (.num 42) =
      (.obj [("a", .num 1)], false) := by
  refine ⟨?_, ?_, ?_, ?_, ?_, rfl, rfl, rfl⟩
  · intro fs k v
    refine ⟨rfl, ?_, ?_⟩
    · simp [GMS.jsonObjSet, GMS.jsonLookup, GMS.insertField_find_self]
    · intro k' hk
      simp [GMS.jsonObjSet, GMS.jsonLookup, GMS.insertField_find_other k k' v hk]
  · intro fs k v h
    simp [GMS.jsonObjInsert, h]
  · intro fs k v h
    refine ⟨?_, ?_, ?_⟩
    · simp [GMS.jsonObjInsert, h]
    · simp [GMS.jsonObjInsert, h, GMS.jsonLookup, GMS.insertField_find_self]
    · intro k' hk
      simp [GMS.jsonObjInsert, h, GMS.jsonLookup, GMS.insertField_find_other k k' v hk]
  · intro fs k v h
    refine ⟨?_, ?_, ?_⟩
    · simp [GMS.jsonObjReplace, h]
    · simp [GMS.jsonObjReplace, h, GMS.jsonLookup, GMS.replaceField_find_self k v fs h]
    · intro k' hk
      simp [GMS.jsonObjReplace, h, GMS.jsonLookup, GMS.replaceField_find_other k k' v hk]
  · intro fs k v h
    simp [GMS.jsonObjReplace, h]

/-- C6 witness: insertion of the absent field `b` into the object with
the single field `a`. -/
theorem C6_witness :
    (GMS.jsonObjInsert (.obj [("a", .num 1)]) "b" (.num 42)).2 = true ∧
    GMS.jsonLookup (GMS.jsonObjInsert (.obj [("a", .num 1)]) "b" (.num 42)).1 "b" =
      some (.num 42) ∧
    GMS.jsonLookup (GMS.jsonObjInsert (.obj [("a", .num 1)]) "b" (.num 42)).1 "a" =
      GMS.jsonLookup (.obj [("a", .num 1)]) "a" := by
  obtain ⟨h1, h2, h3⟩ := C6_json_mutations.2.2.1 [("a", .num 1)] "b" (.num 42) rfl
  exact ⟨h1, h2, h3 "a" (by decide)⟩

namespace GMS

theorem charListLtB_cons_iff (a b : Char) (as bs : List Char) :
    charListLtB (a :: as) (b :: bs) = true ↔
      a.toNat < b.toNat ∨ (a.toNat = b.toNat ∧ charListLtB as bs = true) := by
  show (if a.toNat < b.toNat then true
        else if b.toNat < a.toNat then false
        else charListLtB as bs) = true ↔ _
  split_ifs with h1 h2
  · simp [h1]
  · simp
    omega
  · have : a.toNat = b.toNat := by omega
    simp [this, h1]

theorem charListLtB_trans :
    ∀ l1 l2 l3 : List Char, charListLtB l1 l2 = true → charListLtB l2 l3 = true →
    charListLtB l1 l3 = true := by
  intro l1
  induction l1 with
  | nil =>
    intro l2 l3 h12 h23
    cases l2 with
    | nil => exact h23
    | cons b bs =>
      cases l3 with
      | nil => simp [charListLtB] at h23
      | cons c cs => rfl
  | cons a as ih =>
    intro l2 l3 h12 h23
    cases l2 with
    | nil => simp [charListLtB] at h12
    | cons b bs =>
      cases l3 with
      | nil => simp [charListLtB] at h23
      | cons c cs =>
        rw [charListLtB_cons_iff] at h12 h23 ⊢
        rcases h12 with h12 | ⟨he12, hr12⟩
        · rcases h23 with h23 | ⟨he23, _⟩
          · exact Or.inl (by omega)
          · exact Or.inl (by omega)
        · rcases h23 with h23 | ⟨he23, hr23⟩
          · exact Or.inl (by omega)
          · exact Or.inr ⟨by omega, ih bs cs hr12 hr23⟩

theorem charListLtB_asymm :
    ∀ l1 l2 : List Char, charListLtB l1 l2 = true → charListLtB l2 l1 = false := by
  intro l1
  induction l1 with
  | nil =>
    intro l2 h
    cases l2 with
    | nil => simp [charListLtB] at h
    | cons b bs => rfl
  | cons a as ih =>
    intro l2 h
    cases l2 with
    | nil => simp [charListLtB] at h
    | cons b bs =>
      rw [charListLtB_cons_iff] at h
      rw [Bool.eq_false_iff]
      intro hcon
      rw [charListLtB_cons_iff] at hcon
      rcases h with h | ⟨he, hr⟩ <;> rcases hcon with hc | ⟨hce, hcr⟩
      · omega
      · omega
      · omega
      · have := ih bs hr
        rw [hcr] at this
        exact Bool.noConfusion this

theorem strLtB_trans {a b c : String} (h1 : strLtB a b = true) (h2 : strLtB b c = true) :
    strLtB a c = true :=
  charListLtB_trans a.data b.data c.data h1 h2

theorem strLtB_asymm {a b : String} (h : strLtB a b = true) : strLtB b a = false :=
  charListLtB_asymm a.data b.data h

end GMS

namespace GMS

theorem keysSorted_cons_all :
    ∀ (x : String × JVal) (rest : List (String × JVal)),
    keysSorted (x :: rest) = true →
    (∀ a ∈ rest, strLtB x.1 a.1 = true) ∧ keysSorted rest = true := by
  intro x rest
  induction rest generalizing x with
  | nil => intro _; exact ⟨by simp, rfl⟩
  | cons y ys ih =>
    intro h
    have hxy : strLtB x.1 y.1 = true := by
      simp [keysSorted] at h
      exact h.1
    have htail : keysSorted (y :: ys) = true := by
      simp [keysSorted] at h ⊢
      exact h.2
    obtain ⟨hall, _⟩ := ih y htail
    refine ⟨?_, htail⟩
    intro a ha
    rcases List.mem_cons.mp ha with h | h
    · exact h ▸ hxy
    · exact strLtB_trans hxy (hall a h)

theorem keysSorted_prefix_all_lt :
    ∀ (l1 : List (String × JVal)) (p : String × JVal) (l2 : List (String × JVal)),
    keysSorted (l1 ++ p :: l2) = true → ∀ a ∈ l1, strLtB a.1 p.1 = true := by
  intro l1
  induction l1 with
  | nil => intro p l2 _ a ha; exact absurd ha (List.not_mem_nil a)
  | cons x l1 ih =>
    intro p l2 h a ha
    obtain ⟨hall, htail⟩ := keysSorted_cons_all x (l1 ++ p :: l2) (by simpa using h)
    rcases List.mem_cons.mp ha with hx | hx
    · subst hx
      exact hall p (by simp)
    · exact ih p l2 htail a hx

theorem insertField_append (k : String) (v : JVal) :
    ∀ acc : List (String × JVal), (∀ a ∈ acc, strLtB a.1 k = true) →
    insertField k v acc = acc ++ [(k, v)] := by
  intro acc
  induction acc with
  | nil => intro _; rfl
  | cons p acc ih =>
    intro hall
    obtain ⟨k2, v2⟩ := p
    have h2k : strLtB k2 k = true := hall (k2, v2) (by simp)
    have hk2 : strLtB k k2 = false := strLtB_asymm h2k
    have hne : ¬(k = k2) := by
      intro hkk
      subst hkk
      rw [strLtB_irrefl] at h2k
      exact Bool.noConfusion h2k
    unfold insertField
    simp [hk2, hne]
    exact ih (fun a ha => hall a (by simp [ha]))

theorem foldl_insertField_sorted :
    ∀ (fs acc : List (String × JVal)), keysSorted (acc ++ fs) = true →
    fs.foldl (fun acc kv => insertField kv.1 kv.2 acc) acc = acc ++ fs := by
  intro fs
  induction fs with
  | nil => intro acc _; simp
  | cons p fs ih =>
    intro acc h
    obtain ⟨k, v⟩ := p
    have hins : insertField k v acc = acc ++ [(k, v)] :=
      insertField_append k v acc (keysSorted_prefix_all_lt acc (k, v) fs h)
    have hre : (acc ++ [(k, v)]) ++ fs = acc ++ (k, v) :: fs := by simp
    calc ((k, v) :: fs).foldl (fun acc kv => insertField kv.1 kv.2 acc) acc
        = fs.foldl (fun acc kv => insertField kv.1 kv.2 acc) (insertField k v acc) := by
          simp [List.foldl_cons]
      _ = fs.foldl (fun acc kv => insertField kv.1 kv.2 acc) (acc ++ [(k, v)]) := by
          rw [hins]
      _ = (acc ++ [(k, v)]) ++ fs := ih (acc ++ [(k, v)]) (by rw [hre]; exact h)
      _ = acc ++ (k, v) :: fs := hre

theorem normFields_sorted (fs : List (String × JVal)) (h : keysSorted fs = true) :
    normFields fs = fs := by
  unfold normFields
  simpa using foldl_insertField_sorted fs [] (by simpa using h)

end GMS

namespace GMS

theorem natCharsAux_fuel_inv :
    ∀ f1 : Nat, ∀ n f2 : Nat, n < f1 → n < f2 → natCharsAux f1 n = natCharsAux f2 n := by
  intro f1
  induction f1 with
  | zero => intro n f2 h1 _; omega
  | succ f1 ih =>
    intro n f2 h1 h2
    cases f2 with
    | zero => omega
    | succ f2 =>
      unfold natCharsAux
      by_cases h10 : n < 10
      · simp [h10]
      · simp [h10]
        have hd : n / 10 < n := Nat.div_lt_self (by omega) (by omega)
        rw [ih (n / 10) f2 (by omega) (by omega)]

theorem natChars_unfold (n : Nat) :
    natChars n = if n < 10 then [digitChar n]
      else natChars (n / 10) ++ [digitChar (n % 10)] := by
  unfold natChars
  rw [show natCharsAux (n + 1) n = if n < 10 then [digitChar n]
      else natCharsAux n (n / 10) ++ [digitChar (n % 10)] from rfl]
  by_cases h10 : n < 10
  · simp [h10]
  · simp [h10]
    exact natCharsAux_fuel_inv n (n / 10) (n / 10 + 1)
      (Nat.div_lt_self (by omega) (by omega)) (by omega)

theorem natChars_ne_nil (n : Nat) : natChars n ≠ [] := by
  rw [natChars_unfold]
  by_cases h10 : n < 10 <;> simp [h10]

theorem digitChar_isDigit (d : Nat) (h : d < 10) : (digitChar d).isDigit = true := by
  interval_cases d <;> decide

theorem digitVal_digitChar (d : Nat) (h : d < 10) : digitVal (digitChar d) = d := by
  interval_cases d <;> decide

theorem natChars_digits : ∀ n : Nat, ∀ c ∈ natChars n, c.isDigit = true := by
  intro n
  induction n using Nat.strong_induction_on with
  | _ n ih =>
    intro c hc
    rw [natChars_unfold] at hc
    by_cases h10 : n < 10
    · simp [h10] at hc
      exact hc ▸ digitChar_isDigit n h10
    · simp [h10] at hc
      rcases hc with hc | hc
      · exact ih (n / 10) (Nat.div_lt_self (by omega) (by omega)) c hc
      · exact hc ▸ digitChar_isDigit (n % 10) (Nat.mod_lt n (by omega))

theorem parseNatAux_natChars :
    ∀ n acc rest, parseNatAux acc (natChars n ++ rest) =
      parseNatAux (acc * 10 ^ (natChars n).length + n) rest := by
  intro n
  induction n using Nat.strong_induction_on with
  | _ n ih =>
    intro acc rest
    by_cases h10 : n < 10
    · rw [natChars_unfold]
      simp [h10, parseNatAux, digitChar_isDigit n h10, digitVal_digitChar n h10]
      have harg : 10 * acc + n = acc * 10 + n := by ring
      rw [harg]
    · rw [natChars_unfold]
      simp only [h10, if_false, List.append_assoc, List.singleton_append]
      rw [ih (n / 10) (Nat.div_lt_self (by omega) (by omega)) acc
        (digitChar (n % 10) :: rest)]
      have hdig : (digitChar (n % 10)).isDigit = true :=
        digitChar_isDigit (n % 10) (Nat.mod_lt n (by omega))
      have hval : digitVal (digitChar (n % 10)) = n % 10 :=
        digitVal_digitChar (n % 10) (Nat.mod_lt n (by omega))
      simp [parseNatAux, hdig, hval]
      have hlen : (natChars n).length = (natChars (n / 10)).length + 1 := by
        rw [natChars_unfold]
        simp [h10]
      have hmod : 10 * (n / 10) + n % 10 = n := by omega
      have harg : 10 * (acc * 10 ^ (natChars (n / 10)).length + n / 10) + n % 10 =
          acc * 10 ^ ((natChars (n / 10)).length + 1) + n := by
        calc 10 * (acc * 10 ^ (natChars (n / 10)).length + n / 10) + n % 10
            = acc * 10 ^ (natChars (n / 10)).length * 10 + (10 * (n / 10) + n % 10) := by
              ring
          _ = acc * 10 ^ (natChars (n / 10)).length * 10 + n := by rw [hmod]
          _ = acc * 10 ^ ((natChars (n / 10)).length + 1) + n := by rw [pow_succ]; ring
      rw [harg]

theorem parseNatAux_stop (acc : Nat) (rest : List Char) (h : restOkB rest = true) :
    parseNatAux acc rest = (acc, rest) := by
  cases rest with
  | nil => rfl
  | cons c cs =>
    simp [restOkB] at h
    simp [parseNatAux, h]

theorem takeStrAux_append :
    ∀ (l acc rest : List Char), (∀ c ∈ l, (c = '"') = False) →
    takeStrAux acc (l ++ '"' :: rest) = some (String.mk (acc.reverse ++ l), rest) := by
  intro l
  induction l with
  | nil => intro acc rest _; simp [takeStrAux]
  | cons c l ih =>
    intro acc rest hq
    have hc : ¬(c = '"') := by
      have := hq c (by simp)
      simp at this
      exact this
    simp only [List.cons_append]
    unfold takeStrAux
    simp [hc]
    rw [ih (c :: acc) rest (fun x hx => hq x (by simp [hx]))]
    simp

end GMS

namespace GMS

theorem skipWs_cons_not_ws {c : Char} (cs : List Char) (h : isWsChar c = false) :
    skipWs (c :: cs) = c :: cs := by
  simp [skipWs, h]

theorem parseVal_ws (fuel : Nat) (l : List Char) :
    parseVal fuel (' ' :: l) = parseVal fuel l := by
  cases fuel with
  | zero => rfl
  | succ f =>
    unfold parseVal
    rw [show skipWs (' ' :: l) = skipWs l from by simp [skipWs, isWsChar]]

theorem parseElems_ws (fuel : Nat) (l : List Char) :
    parseElems fuel (' ' :: l) = parseElems fuel l := by
  cases fuel with
  | zero => rfl
  | succ f =>
    unfold parseElems
    rw [parseVal_ws]

theorem parseFields_ws (fuel : Nat) (l : List Char) :
    parseFields fuel (' ' :: l) = parseFields fuel l := by
  cases fuel with
  | zero => rfl
  | succ f =>
    unfold parseFields
    rw [show skipWs (' ' :: l) = skipWs l from by simp [skipWs, isWsChar]]

/-- Character kit: a decimal digit is none of the parser's structural
characters. -/
theorem digit_not_special (c : Char) (h : c.isDigit = true) :
    isWsChar c = false ∧ (c = 'n') = False ∧ (c = 't') = False ∧ (c = 'f') = False ∧
    (c = '"') = False ∧ (c = '-') = False ∧ (c = '[') = False ∧ (c = '\x7b') = False ∧
    (c = ']') = False ∧ (c = '\x7d') = False ∧ (c = ',') = False ∧ (c = ':') = False := by
  have hws : isWsChar c = false := by
    unfold isWsChar
    simp only [Bool.or_eq_false_iff, decide_eq_false_iff_not]
    refine ⟨⟨⟨fun heq => ?_, fun heq => ?_⟩, fun heq => ?_⟩, fun heq => ?_⟩ <;>
      (subst heq; exact absurd h (by decide))
  refine ⟨hws, ?_, ?_, ?_, ?_, ?_, ?_, ?_, ?_, ?_, ?_, ?_⟩ <;>
    (simp only [eq_iff_iff, iff_false]
     intro heq
     subst heq
     exact absurd h (by decide))

theorem serializeChars_head (x : JVal) :
    ∃ c cs, serializeChars x = c :: cs ∧ isWsChar c = false ∧
      (c = ']') = False ∧ (c = '\x7d') = False ∧ (c = ',') = False ∧ (c = ':') = False := by
  cases x with
  | jnull => exact ⟨'n', _, rfl, by decide, by decide, by decide, by decide, by decide⟩
  | jbool b =>
    cases b with
    | true => exact ⟨'t', _, rfl, by decide, by decide, by decide, by decide, by decide⟩
    | false => exact ⟨'f', _, rfl, by decide, by decide, by decide, by decide, by decide⟩
  | str s => exact ⟨'"', _, rfl, by decide, by decide, by decide, by decide, by decide⟩
  | arr xs => exact ⟨'[', _, rfl, by decide, by decide, by decide, by decide, by decide⟩
  | obj fs => exact ⟨'\x7b', _, rfl, by decide, by decide, by decide, by decide, by decide⟩
  | num n =>
    show ∃ c cs, intChars n = c :: cs ∧ _
    unfold intChars
    by_cases hneg : n < 0
    · exact ⟨'-', natChars n.natAbs, by simp [hneg], by decide, by decide, by decide,
        by decide, by decide⟩
    · simp only [hneg, if_false]
      obtain ⟨d, ds, hds⟩ := List.exists_cons_of_ne_nil (natChars_ne_nil n.toNat)
      have hdig : d.isDigit = true :=
        natChars_digits n.toNat d (by rw [hds]; simp)
      obtain ⟨hw, _, _, _, _, _, _, _, h1, h2, h3, h4⟩ := digit_not_special d hdig
      exact ⟨d, ds, hds, hw, h1, h2, h3, h4⟩

end GMS

namespace GMS

theorem fuelNeed_pos (x : JVal) : 1 ≤ fuelNeed x := by
  cases x <;> simp [fuelNeed]

theorem fuelNeedElems_pos (xs : List JVal) (h : xs ≠ []) : 1 ≤ fuelNeedElems xs := by
  cases xs with
  | nil => exact absurd rfl h
  | cons y ys => simp [fuelNeedElems]

theorem fuelNeedFields_pos (fs : List (String × JVal)) (h : fs ≠ []) :
    1 ≤ fuelNeedFields fs := by
  cases fs with
  | nil => exact absurd rfl h
  | cons g gs => obtain ⟨k, v⟩ := g; simp [fuelNeedFields]

theorem parse_serialize_aux :
    ∀ fuel : Nat,
    (∀ (x : JVal) (rest : List Char), canonB x = true → restOkB rest = true →
      fuelNeed x ≤ fuel → parseVal fuel (serializeChars x ++ rest) = some (x, rest)) ∧
    (∀ (xs : List JVal) (rest : List Char), xs ≠ [] → canonListB xs = true →
      fuelNeedElems xs ≤ fuel →
      parseElems fuel (serializeElems xs ++ ']' :: rest) = some (xs, rest)) ∧
    (∀ (fs : List (String × JVal)) (rest : List Char), fs ≠ [] → canonFieldsB fs = true →
      fuelNeedFields fs ≤ fuel →
      parseFields fuel (serializeFields fs ++ '\x7d' :: rest) = some (fs, rest)) := by
  intro fuel
  induction fuel with
  | zero =>
    refine ⟨?_, ?_, ?_⟩
    · intro x rest _ _ hf
      exact absurd (le_trans (fuelNeed_pos x) hf) (by omega)
    · intro xs rest hne _ hf
      exact absurd (le_trans (fuelNeedElems_pos xs hne) hf) (by omega)
    · intro fs rest hne _ hf
      exact absurd (le_trans (fuelNeedFields_pos fs hne) hf) (by omega)
  | succ fuel ih =>
    obtain ⟨ihP, ihQ, ihR⟩ := ih
    refine ⟨?_, ?_, ?_⟩
    · intro x rest hc hr hf
      cases x with
      | jnull => rfl
      | jbool b => cases b <;> rfl
      | num n =>
        by_cases hneg : n < 0
        · obtain ⟨d, ds, hds⟩ := List.exists_cons_of_ne_nil (natChars_ne_nil n.natAbs)
          have hdig : d.isDigit = true := natChars_digits n.natAbs d (by rw [hds]; simp)
          have hser : serializeChars (.num n) ++ rest =
              '-' :: (natChars n.natAbs ++ rest) := by
            simp [serializeChars, intChars, hneg]
          rw [hser]
          unfold parseVal
          rw [skipWs_cons_not_ws _ (by decide)]
          rw [hds]
          simp only [List.cons_append]
          simp [hdig]
          rw [show (d :: (ds ++ rest)) = natChars n.natAbs ++ rest from by rw [hds]; simp]
          rw [parseNatAux_natChars, parseNatAux_stop _ _ hr]
          simp [Int.ofNat_natAbs_of_nonpos (le_of_lt hneg)]
        · obtain ⟨d, ds, hds⟩ := List.exists_cons_of_ne_nil (natChars_ne_nil n.toNat)
          have hdig : d.isDigit = true := natChars_digits n.toNat d (by rw [hds]; simp)
          obtain ⟨hws, hn1, hn2, hn3, hn4, hn5, hn6, hn7, _, _, _, _⟩ :=
            digit_not_special d hdig
          have hser : serializeChars (.num n) ++ rest = d :: (ds ++ rest) := by
            simp [serializeChars, intChars, hneg, hds]
          rw [hser]
          unfold parseVal
          rw [skipWs_cons_not_ws _ hws]
          simp [hn1, hn2, hn3, hn4, hn5, hn6, hn7, hdig]
          rw [show (d :: (ds ++ rest)) = natChars n.toNat ++ rest from by rw [hds]; simp]
          rw [parseNatAux_natChars, parseNatAux_stop _ _ hr]
          simp [Int.toNat_of_nonneg (not_lt.mp hneg)]
      | str s =>
        have hq : ∀ c ∈ s.data, (c = '"') = False := by
          have hnq : noQuote s = true := by simpa [canonB] using hc
          simp [noQuote, List.all_eq_true] at hnq
          intro c hcm
          simp
          exact hnq c hcm
        have hser : serializeChars (.str s) ++ rest = '"' :: (s.data ++ '"' :: rest) := by
          simp [serializeChars]
        rw [hser]
        unfold parseVal
        rw [skipWs_cons_not_ws _ (by decide)]
        simp only [reduceIte, Char.isDigit]
        rw [takeStrAux_append s.data [] rest hq]
        simp
      | arr xs =>
        cases xs with
        | nil => rfl
        | cons y ys =>
          have hcl : canonListB (y :: ys) = true := by simpa [canonB] using hc
          have hfe : fuelNeedElems (y :: ys) ≤ fuel := by
            have : fuelNeed (JVal.arr (y :: ys)) = 1 + fuelNeedElems (y :: ys) := by
              simp [fuelNeed]
            omega
          obtain ⟨T, hT⟩ : ∃ T, serializeElems (y :: ys) = serializeChars y ++ T := by
            cases ys with
            | nil => exact ⟨[], by simp [serializeElems]⟩
            | cons z zs => exact ⟨',' :: ' ' :: serializeElems (z :: zs), rfl⟩
          obtain ⟨c0, cs0, hhead, hws0, hb1, hb2, hb3, hb4⟩ := serializeChars_head y
          have hcs : serializeElems (y :: ys) ++ ']' :: rest =
              c0 :: (cs0 ++ (T ++ ']' :: rest)) := by
            rw [hT, hhead]
            simp
          have hser : serializeChars (.arr (y :: ys)) ++ rest =
              '[' :: (serializeElems (y :: ys) ++ ']' :: rest) := by
            simp [serializeChars]
          rw [hser]
          unfold parseVal
          rw [skipWs_cons_not_ws _ (by decide)]
          simp only [reduceIte, Char.isDigit]
          rw [hcs, skipWs_cons_not_ws _ hws0]
          simp [hb1]
          rw [← hcs, ihQ (y :: ys) rest (by simp) hcl hfe]
      | obj fs =>
        cases fs with
        | nil => rfl
        | cons g gs =>
          have hks : keysSorted (g :: gs) = true := by
            have := hc
            simp [canonB] at this
            exact this.1
          have hcf : canonFieldsB (g :: gs) = true := by
            have := hc
            simp [canonB] at this
            exact this.2
          have hff : fuelNeedFields (g :: gs) ≤ fuel := by
            have : fuelNeed (JVal.obj (g :: gs)) = 1 + fuelNeedFields (g :: gs) := by
              simp [fuelNeed]
            omega
          obtain ⟨k, v⟩ := g
          have hhead : ∃ T, serializeFields ((k, v) :: gs) =
              '"' :: (k.data ++ ('"' :: ':' :: ' ' :: serializeChars v) ++ T) := by
            cases gs with
            | nil => exact ⟨[], by simp [serializeFields]⟩
            | cons g2 gs2 =>
              exact ⟨',' :: ' ' :: serializeFields (g2 :: gs2), by
                simp [serializeFields]⟩
          obtain ⟨T, hT⟩ := hhead
          have hcs : serializeFields ((k, v) :: gs) ++ '\x7d' :: rest =
              '"' :: (k.data ++ '"' :: ':' :: ' ' ::
                (serializeChars v ++ (T ++ '\x7d' :: rest))) := by
            rw [hT]
            simp
          have hser : serializeChars (.obj ((k, v) :: gs)) ++ rest =
              '\x7b' :: (serializeFields ((k, v) :: gs) ++ '\x7d' :: rest) := by
            simp [serializeChars]
          rw [hser]
          unfold parseVal
          rw [skipWs_cons_not_ws _ (by decide)]
          simp only [reduceIte, Char.isDigit]
          rw [hcs, skipWs_cons_not_ws _ (by decide)]
          simp
          rw [← hcs, ihR ((k, v) :: gs) rest (by simp) hcf hff]
          simp [normFields_sorted _ hks]
    · intro xs rest hne hc hf
      cases xs with
      | nil => exact absurd rfl hne
      | cons y ys =>
        have hcy : canonB y = true := by
          simp [canonListB] at hc
          exact hc.1
        cases ys with
        | nil =>
          have hfy : fuelNeed y ≤ fuel := by
            simp [fuelNeedElems] at hf
            omega
          have hsr : serializeElems [y] ++ ']' :: rest = serializeChars y ++ ']' :: rest := by
            simp [serializeElems]
          rw [hsr]
          unfold parseElems
          rw [ihP y (']' :: rest) hcy rfl hfy]
          rfl
        | cons z zs =>
          have hcz : canonListB (z :: zs) = true := by
            revert hc
            simp [canonListB]
            try tauto
          have hfy : fuelNeed y ≤ fuel := by
            simp [fuelNeedElems] at hf
            omega
          have hfz : fuelNeedElems (z :: zs) ≤ fuel := by
            have h1 : fuelNeedElems (y :: z :: zs) =
                1 + max (fuelNeed y) (fuelNeedElems (z :: zs)) := by
              simp [fuelNeedElems]
            omega
          have hsr : serializeElems (y :: z :: zs) ++ ']' :: rest =
              serializeChars y ++ (',' :: ' ' ::
                (serializeElems (z :: zs) ++ ']' :: rest)) := by
            show (serializeChars y ++ (',' :: ' ' :: serializeElems (z :: zs))) ++
              ']' :: rest = _
            simp
          rw [hsr]
          unfold parseElems
          rw [ihP y (',' :: ' ' :: (serializeElems (z :: zs) ++ ']' :: rest)) hcy rfl hfy]
          simp only [skipWs_cons_not_ws _ (by decide : isWsChar ',' = false)]
          simp only [reduceIte]
          rw [parseElems_ws, ihQ (z :: zs) rest (by simp) hcz hfz]
    · intro fs rest hne hc hf
      cases fs with
      | nil => exact absurd rfl hne
      | cons g gs =>
        obtain ⟨k, v⟩ := g
        have hq0 : noQuote k = true := by
          revert hc
          simp [canonFieldsB]
          try tauto
        have hnq : ∀ c ∈ k.data, (c = '"') = False := by
          simp [noQuote, List.all_eq_true] at hq0
          intro c hcm
          simp
          exact hq0 c hcm
        have hcv : canonB v = true := by
          revert hc
          simp [canonFieldsB]
          try tauto
        have hfv : fuelNeed v ≤ fuel := by
          simp [fuelNeedFields] at hf
          omega
        cases gs with
        | nil =>
          have hsr : serializeFields [(k, v)] ++ '\x7d' :: rest =
              '"' :: (k.data ++ '"' ::
                (':' :: ' ' :: (serializeChars v ++ '\x7d' :: rest))) := by
            simp [serializeFields]
          rw [hsr]
          unfold parseFields
          rw [skipWs_cons_not_ws _ (by decide)]
          simp only [reduceIte]
          rw [takeStrAux_append k.data [] _ hnq]
          simp only [List.reverse_nil, List.nil_append]
          rw [skipWs_cons_not_ws _ (by decide)]
          simp only [reduceIte]
          rw [parseVal_ws, ihP v ('\x7d' :: rest) hcv rfl hfv]
          rfl
        | cons g2 gs2 =>
          have hcg : canonFieldsB (g2 :: gs2) = true := by
            revert hc
            simp [canonFieldsB]
            try tauto
          have hfg : fuelNeedFields (g2 :: gs2) ≤ fuel := by
            have h1 : fuelNeedFields ((k, v) :: g2 :: gs2) =
                1 + max (fuelNeed v) (fuelNeedFields (g2 :: gs2)) := by
              simp [fuelNeedFields]
            omega
          have hsr : serializeFields ((k, v) :: g2 :: gs2) ++ '\x7d' :: rest =
              '"' :: (k.data ++ '"' ::
                (':' :: ' ' :: (serializeChars v ++
                  (',' :: ' ' :: (serializeFields (g2 :: gs2) ++ '\x7d' :: rest))))) := by
            show ('"' :: (k.data ++ ('"' :: ':' :: ' ' :: serializeChars v)) ++
              (',' :: ' ' :: serializeFields (g2 :: gs2))) ++ '\x7d' :: rest = _
            simp
          rw [hsr]
          unfold parseFields
          rw [skipWs_cons_not_ws _ (by decide)]
          simp only [reduceIte]
          rw [takeStrAux_append k.data [] _ hnq]
          simp only [List.reverse_nil, List.nil_append]
          rw [skipWs_cons_not_ws _ (by decide)]
          simp only [reduceIte]
          rw [parseVal_ws,
            ihP v (',' :: ' ' :: (serializeFields (g2 :: gs2) ++ '\x7d' :: rest))
              hcv rfl hfv]
          simp only [skipWs_cons_not_ws _ (by decide : isWsChar ',' = false)]
          simp only [reduceIte]
          rw [parseFields_ws, ihR (g2 :: gs2) rest (by simp) hcg hfg]

end GMS

namespace GMS

theorem fuelNeed_le_len :
    ∀ x : JVal, fuelNeed x ≤ (serializeChars x).length := by
  refine serializeChars.induct
    (fun x => fuelNeed x ≤ (serializeChars x).length)
    (fun fs => fuelNeedFields fs ≤ (serializeFields fs).length + 1)
    (fun xs => fuelNeedElems xs ≤ (serializeElems xs).length + 1)
    ?_ ?_ ?_ ?_ ?_ ?_ ?_ ?_ ?_ ?_ ?_ ?_ ?_
  · simp [fuelNeed, serializeChars]
  · simp [fuelNeed, serializeChars]
  · simp [fuelNeed, serializeChars]
  · intro n
    simp [fuelNeed, serializeChars]
    unfold intChars
    by_cases h : n < 0
    · simp [h]
    · simp [h]
      exact List.length_pos.mpr (natChars_ne_nil _)
  · intro s
    simp [fuelNeed, serializeChars]
  · intro xs ih
    simp [fuelNeed, serializeChars] at ih ⊢
    omega
  · intro fs ih
    simp [fuelNeed, serializeChars] at ih ⊢
    omega
  · simp [fuelNeedElems, serializeElems]
  · intro x ih
    simp [fuelNeedElems, serializeElems] at ih ⊢
    omega
  · intro x xs hxs ihx ihtail
    cases xs with
    | nil => exact absurd rfl hxs
    | cons z zs =>
      have hlen : (serializeElems (x :: z :: zs)).length =
          (serializeChars x).length + 2 + (serializeElems (z :: zs)).length := by
        show (serializeChars x ++ (',' :: ' ' :: serializeElems (z :: zs))).length = _
        simp
        omega
      have hfe : fuelNeedElems (x :: z :: zs) =
          1 + max (fuelNeed x) (fuelNeedElems (z :: zs)) := by
        simp [fuelNeedElems]
      rw [hfe, hlen]
      omega
  · simp [fuelNeedFields, serializeFields]
  · intro k v ih
    simp [fuelNeedFields, serializeFields] at ih ⊢
    omega
  · intro k v fs hfs ihv ihtail
    cases fs with
    | nil => exact absurd rfl hfs
    | cons g gs =>
      have hlen : (serializeFields ((k, v) :: g :: gs)).length =
          (serializeChars v).length + (serializeFields (g :: gs)).length +
            k.data.length + 6 := by
        show ('"' :: (k.data ++ ('"' :: ':' :: ' ' :: serializeChars v)) ++
          (',' :: ' ' :: serializeFields (g :: gs))).length = _
        simp
        omega
      have hfe : fuelNeedFields ((k, v) :: g :: gs) =
          1 + max (fuelNeed v) (fuelNeedFields (g :: gs)) := by
        simp [fuelNeedFields]
      rw [hfe, hlen]
      omega

end GMS

/-- C5: for every supported canonical JSON value x,
`parse(serialize(x)) = x`, and serialization normalizes to MySQL's
printed form — object keys sorted, a space after every comma and every
colon: the input `{"b":2,"a":1}` prints as
`{"a": 1, "b": 2}`.  (Canonical means the parser's invariant:
object fields key-sorted — Go's unordered maps have one canonical
association-list representative — and strings quote-free, as escaping is
not modelled.) -/
theorem C5_json_roundtrip :
    (∀ x : GMS.JVal, GMS.canonB x = true →
      GMS.jsonParse (GMS.jsonSerialize x) = some x) ∧
    (GMS.jsonParse "\x7b\"b\":2,\"a\":1\x7d").map GMS.jsonSerialize =
      some "\x7b\"a\": 1, \"b\": 2\x7d" := by
  refine ⟨?_, rfl⟩
  intro x hc
  have h := (GMS.parse_serialize_aux ((GMS.serializeChars x).length + 1)).1 x [] hc rfl
    (le_trans (GMS.fuelNeed_le_len x) (by omega))
  rw [List.append_nil] at h
  unfold GMS.jsonParse GMS.jsonSerialize
  rw [show (String.mk (GMS.serializeChars x)).length = (GMS.serializeChars x).length from rfl]
  rw [show (String.mk (GMS.serializeChars x)).data = GMS.serializeChars x from rfl]
  rw [h]
  rfl

/-- C5 witness: the round trip at the two-field object
`{"a": 1, "b": 2}`. -/
theorem C5_witness :
    GMS.canonB (.obj [("a", GMS.JVal.num 1), ("b", GMS.JVal.num 2)]) = true ∧
    GMS.jsonParse (GMS.jsonSerialize (.obj [("a", GMS.JVal.num 1), ("b", GMS.JVal.num 2)])) =
      some (.obj [("a", GMS.JVal.num 1), ("b", GMS.JVal.num 2)]) :=
  ⟨rfl, C5_json_roundtrip.1 _ rfl⟩
